import Mathlib

/-
Verification of the VSS (versioned key-value store) server core against its
specification.  The definitions below are a shallow embedding of the Rust
sources:

  * rust/impls/src/in_memory_store.rs   (reference backend: a mutex-guarded
    BTreeMap<String, VssDbRecord>, modelled as an association list sorted by
    key, since BTreeMap iterates in ascending key order)
  * rust/impls/src/postgres_store.rs    (SQL backend: the vss_db table is
    modelled as a list of rows with primary key (user_token, store_id, key);
    each SQL statement is modelled by its documented PostgreSQL semantics,
    returning the new table and the affected-row count)
  * rust/server/src/vss_service.rs and rust/auth-impls (header handling of
    the request router and the Authorization lookups of the authenticators)

Machine integers: Rust i64 values are modelled as Int; the only operation
that can overflow in the relevant code paths is `saturating_add(1)`, modelled
by satAdd1.  The `as usize` cast of an i32 is modelled by reduction mod 2^64
(64-bit target).  Byte strings (`Bytes` / `Vec<u8>`) are modelled as List Nat.
Rust `String` is modelled as Lean String; all slicing in the sources happens
at boundaries of concatenations, where byte indices and character indices
agree, so character-based drop is a faithful model.
-/

namespace VSS

/-- Maximum value of a Rust i64. -/
def i64max : Int := 9223372036854775807

/-- Model of Rust i64 `saturating_add(1)` (for arguments that are at most
i64max, which holds for every stored version). -/
def satAdd1 (v : Int) : Int := min (v + 1) i64max

/-- Maximum value of a Rust i32 (postgres list uses `i32::MAX` as default
page size). -/
def i32max : Int := 2147483647

/-- Model of the Rust cast `as usize` applied to an i32 value: sign extension
to 64 bits, reinterpreted as unsigned (64-bit target). -/
def usizeOfI32 (v : Int) : Nat := (v % 18446744073709551616).toNat

/-- Rust `usize::MAX` + 1 on a 64-bit target. -/
def usizeMod : Nat := 18446744073709551616

/-- api/src/error.rs: the five kinds of VssError, each carrying a message. -/
inductive VssError where
  | NoSuchKeyError : String → VssError
  | InvalidRequestError : String → VssError
  | ConflictError : String → VssError
  | AuthError : String → VssError
  | InternalServerError : String → VssError
deriving DecidableEq, Repr

/-- True exactly for `VssError::ConflictError`. -/
def VssError.isConflict : VssError → Bool
  | .ConflictError _ => true
  | _ => false

/-- api/src/types.rs `KeyValue`: key, version and opaque byte value. -/
structure KeyValue where
  key : String
  value : List Nat
  version : Int
deriving DecidableEq, Repr

/-- impls/src/lib.rs `VssDbRecord` (timestamps modelled as Nat instants). -/
structure VssDbRecord where
  user_token : String
  store_id : String
  key : String
  value : List Nat
  version : Int
  created_at : Nat
  last_updated_at : Nat
deriving DecidableEq, Repr

/-- api/src/kv_store.rs `GLOBAL_VERSION_KEY`. -/
def GLOBAL_VERSION_KEY : String := "global_version"

/-- api/src/kv_store.rs `INITIAL_RECORD_VERSION`. -/
def INITIAL_RECORD_VERSION : Int := 1

/-- impls/src/lib.rs `MAX_PUT_REQUEST_ITEM_COUNT`. -/
def MAX_PUT_REQUEST_ITEM_COUNT : Nat := 1000

/-- impls/src/lib.rs `LIST_KEY_VERSIONS_MAX_PAGE_SIZE` (an i32 in the
source). -/
def LIST_KEY_VERSIONS_MAX_PAGE_SIZE : Int := 100

/-- api/src/types.rs `GetObjectRequest`. -/
structure GetObjectRequest where
  store_id : String
  key : String
deriving DecidableEq, Repr

/-- api/src/types.rs `GetObjectResponse`. -/
structure GetObjectResponse where
  value : Option KeyValue
deriving DecidableEq, Repr

/-- api/src/types.rs `PutObjectRequest`. -/
structure PutObjectRequest where
  store_id : String
  global_version : Option Int
  transaction_items : List KeyValue
  delete_items : List KeyValue
deriving DecidableEq, Repr

/-- api/src/types.rs `DeleteObjectRequest`. -/
structure DeleteObjectRequest where
  store_id : String
  key_value : Option KeyValue
deriving DecidableEq, Repr

/-- api/src/types.rs `ListKeyVersionsRequest` (`key_prefix` is rendered as
`key_pfx` here). -/
structure ListKeyVersionsRequest where
  store_id : String
  key_pfx : Option String
  page_size : Option Int
  page_token : Option String
deriving DecidableEq, Repr

/-- api/src/types.rs `ListKeyVersionsResponse`. -/
structure ListKeyVersionsResponse where
  key_versions : List KeyValue
  next_page_token : Option String
  global_version : Option Int
deriving DecidableEq, Repr

/- ----------------------------------------------------------------- -/
/- String helpers modelling Rust str operations used by the sources. -/
/- ----------------------------------------------------------------- -/

/-- Model of Rust `str::starts_with` (prefix test on the character data). -/
def strStartsWith (s p : String) : Bool := p.data.isPrefixOf s.data

/-- Model of the Rust slice `&s[n..]`: drop the first n characters.  In the
source the index is a byte count, but every use slices at the boundary of a
concatenation, where character and byte indexing agree. -/
def strDrop (s : String) (n : Nat) : String := ⟨s.data.drop n⟩

theorem strStartsWith_iff {s p : String} :
    strStartsWith s p = true ↔ p.data <+: s.data := by
  simp [strStartsWith, List.isPrefixOf_iff_prefix]

theorem string_ext {s t : String} (h : s.data = t.data) : s = t := by
  cases s; cases t; exact congrArg String.mk h

theorem strDrop_append (p r : String) : strDrop (p ++ r) p.length = r := by
  apply string_ext
  show ((p ++ r).data.drop p.length) = r.data
  rw [String.data_append]
  exact List.drop_left p.data r.data

/- ------------------------------------------------------------------- -/
/- Decimal printing and parsing, modelling Rust `usize::to_string` and  -/
/- `str::parse::<usize>` (used for the in-memory list page tokens).     -/
/- ------------------------------------------------------------------- -/

/-- The decimal digit character for a value below ten. -/
def digitChar : Nat → Char
  | 0 => '0'
  | 1 => '1'
  | 2 => '2'
  | 3 => '3'
  | 4 => '4'
  | 5 => '5'
  | 6 => '6'
  | 7 => '7'
  | 8 => '8'
  | _ => '9'

/-- Numeric value of a digit character. -/
def digitVal (c : Char) : Nat := c.toNat - 48

/-- Big-endian decimal digits of a natural number (no leading zeros;
the digits of zero are "0"), modelling Rust integer formatting. -/
def natDigits (n : Nat) : List Char :=
  if h : n < 10 then [digitChar n]
  else natDigits (n / 10) ++ [digitChar (n % 10)]
decreasing_by
  exact Nat.div_lt_self (by omega) (by omega)

/-- Model of Rust `usize::to_string`. -/
def natToString (n : Nat) : String := ⟨natDigits n⟩

/-- Digit-list parsing: nonempty all-digit strings evaluate via the usual
fold; values that overflow a 64-bit usize are rejected, as Rust `parse`
rejects them. -/
def parseDigitList (l : List Char) : Option Nat :=
  if l.isEmpty then none
  else if l.all Char.isDigit then
    let v := l.foldl (fun a c => a * 10 + digitVal c) 0
    if v < usizeMod then some v else none
  else none

/-- Model of Rust `str::parse::<usize>().ok()`: optional leading plus sign,
then a nonempty digit string whose value fits in usize. -/
def parseUsize? (s : String) : Option Nat :=
  match s.data with
  | [] => none
  | c :: rest => if c = '+' then parseDigitList rest else parseDigitList (c :: rest)

theorem digitVal_digitChar {m : Nat} (h : m < 10) : digitVal (digitChar m) = m := by
  interval_cases m <;> decide

theorem isDigit_digitChar {m : Nat} (h : m < 10) : (digitChar m).isDigit = true := by
  interval_cases m <;> decide

theorem natDigits_all_digits (n : Nat) : (natDigits n).all Char.isDigit = true := by
  induction n using Nat.strong_induction_on with
  | _ n ih =>
    rw [natDigits]
    by_cases h : n < 10
    · simp [h, isDigit_digitChar h]
    · have hd : n / 10 < n := Nat.div_lt_self (by omega) (by omega)
      simp only [h, dite_false, List.all_append]
      simp [ih _ hd, isDigit_digitChar (Nat.mod_lt _ (by omega))]

theorem natDigits_ne_nil (n : Nat) : natDigits n ≠ [] := by
  rw [natDigits]
  by_cases h : n < 10 <;> simp [h]

theorem foldl_natDigits (n a : Nat) :
    (natDigits n).foldl (fun a c => a * 10 + digitVal c) a = a * 10 ^ (natDigits n).length + n := by
  induction n using Nat.strong_induction_on generalizing a with
  | _ n ih =>
    rw [natDigits]
    by_cases h : n < 10
    · simp [h, List.foldl, digitVal_digitChar h, pow_one]
    · have hd : n / 10 < n := Nat.div_lt_self (by omega) (by omega)
      simp only [h, dite_false, List.foldl_append, List.foldl_cons, List.foldl_nil,
        List.length_append, List.length_cons, List.length_nil]
      rw [ih _ hd a, digitVal_digitChar (Nat.mod_lt _ (by omega))]
      have : a * 10 ^ ((natDigits (n / 10)).length + (0 + 1)) =
          a * 10 ^ (natDigits (n / 10)).length * 10 := by ring
      rw [this]
      omega

theorem foldl_natDigits_zero (n : Nat) :
    (natDigits n).foldl (fun a c => a * 10 + digitVal c) 0 = n := by
  have := foldl_natDigits n 0
  simpa using this

theorem parseUsize?_natToString {n : Nat} (h : n < usizeMod) :
    parseUsize? (natToString n) = some n := by
  have hall := natDigits_all_digits n
  have hne := natDigits_ne_nil n
  have hfold := foldl_natDigits_zero n
  unfold parseUsize? natToString
  cases hd : natDigits n with
  | nil => exact absurd hd hne
  | cons c rest =>
    have hcd : c.isDigit = true := by
      have := hall
      rw [hd] at this
      simp only [List.all_cons, Bool.and_eq_true] at this
      exact this.1
    have hcp : c ≠ '+' := by
      intro hc
      rw [hc] at hcd
      exact absurd hcd (by decide)
    simp only [hcp, if_false]
    unfold parseDigitList
    rw [← hd, hfold]
    simp [hall, hne, h]

/- ---------------------------------------------------------------- -/
/- The in-memory backend: a BTreeMap<String, VssDbRecord> modelled  -/
/- as an association list sorted strictly by key.                   -/
/- ---------------------------------------------------------------- -/

/-- The guarded map of `InMemoryBackendImpl`: entries sorted by storage
key. -/
abbrev Store := List (String × VssDbRecord)

/-- Well-formedness: the keys are strictly increasing (in the character,
equivalently byte, lexicographic order that Rust String uses), as in a
BTreeMap iteration. -/
def Store.WF (s : Store) : Prop := List.Pairwise (fun a b => a.1.data < b.1.data) s

instance (s : Store) : Decidable s.WF := by
  unfold Store.WF
  infer_instance

/-- BTreeMap lookup. -/
def storeGet (s : Store) (k : String) : Option VssDbRecord :=
  match s with
  | [] => none
  | (k0, r0) :: rest => if k = k0 then some r0 else storeGet rest k

/-- BTreeMap insert-or-replace, keeping the list sorted. -/
def storeInsert (s : Store) (k : String) (r : VssDbRecord) : Store :=
  match s with
  | [] => [(k, r)]
  | (k0, r0) :: rest =>
    if k.data < k0.data then (k, r) :: (k0, r0) :: rest
    else if k = k0 then (k, r) :: rest
    else (k0, r0) :: storeInsert rest k r

/-- BTreeMap remove. -/
def storeRemove (s : Store) (k : String) : Store :=
  match s with
  | [] => []
  | (k0, r0) :: rest => if k = k0 then rest else (k0, r0) :: storeRemove rest k

theorem storeGet_insert (s : Store) (k : String) (r : VssDbRecord) (k' : String) :
    storeGet (storeInsert s k r) k' = if k' = k then some r else storeGet s k' := by
  induction s with
  | nil =>
    by_cases h : k' = k <;> simp [storeInsert, storeGet, h]
  | cons e rest ih =>
    obtain ⟨k0, r0⟩ := e
    rcases lt_trichotomy k.data k0.data with h1 | h1 | h1
    · by_cases h : k' = k <;> simp [storeInsert, storeGet, h1, h]
    · have he : k = k0 := string_ext h1
      subst he
      by_cases h : k' = k <;> simp [storeInsert, storeGet, lt_irrefl, h]
    · have hn1 : ¬ k.data < k0.data := not_lt_of_gt h1
      have hn2 : ¬ k = k0 := fun hc => ne_of_gt h1 (by rw [hc])
      have hn2' : ¬ k0 = k := fun hc => hn2 hc.symm
      by_cases hk0 : k' = k0
      · have hne' : ¬ k' = k := by
          rw [hk0]
          exact hn2'
        simp [storeInsert, storeGet, hn1, hn2, hn2', hk0, hne']
      · simp [storeInsert, storeGet, hn1, hn2, hk0, ih]

theorem storeGet_eq_none_of_forall_lt {s : Store} (k : String)
    (h : ∀ p ∈ s, k.data < p.1.data) : storeGet s k = none := by
  induction s with
  | nil => rfl
  | cons e rest ih =>
    obtain ⟨k0, r0⟩ := e
    have hne : ¬ k = k0 := fun hc => ne_of_lt (h (k0, r0) (by simp)) (by rw [hc])
    simp only [storeGet, if_neg hne]
    exact ih (fun p hp => h p (by simp [hp]))

theorem storeGet_remove {s : Store} (hwf : s.WF) (k k' : String) :
    storeGet (storeRemove s k) k' = if k' = k then none else storeGet s k' := by
  induction s with
  | nil =>
    by_cases h : k' = k <;> simp [storeRemove, storeGet, h]
  | cons e rest ih =>
    obtain ⟨k0, r0⟩ := e
    have hwf' : Store.WF rest := (List.pairwise_cons.mp hwf).2
    have hlt : ∀ p ∈ rest, k0.data < p.1.data := (List.pairwise_cons.mp hwf).1
    by_cases h2 : k = k0
    · simp only [storeRemove, if_pos h2]
      by_cases h : k' = k
      · rw [if_pos h]
        apply storeGet_eq_none_of_forall_lt
        intro p hp
        rw [h, h2]
        exact hlt p hp
      · rw [if_neg h]
        have hk0 : ¬ k' = k0 := by
          rw [← h2]
          exact h
        simp [storeGet, hk0]
    · by_cases hk0 : k' = k0
      · have hne' : ¬ k' = k := by
          rw [hk0]
          intro hc
          exact h2 hc.symm
        have h2' : ¬ k0 = k := fun hc => h2 hc.symm
        simp [storeRemove, storeGet, h2, h2', hk0, hne']
      · simp [storeRemove, storeGet, h2, hk0, ih hwf']

theorem mem_storeInsert {s : Store} {k : String} {r : VssDbRecord}
    {p : String × VssDbRecord} (hp : p ∈ storeInsert s k r) : p = (k, r) ∨ p ∈ s := by
  induction s with
  | nil => simpa [storeInsert] using hp
  | cons e rest ih =>
    obtain ⟨k0, r0⟩ := e
    by_cases h1 : k.data < k0.data
    · simp only [storeInsert, if_pos h1, List.mem_cons] at hp
      rcases hp with h | h | h
      · left
        exact h
      · right
        simp [h]
      · right
        simp [h]
    · by_cases h2 : k = k0
      · simp only [storeInsert, if_neg h1, if_pos h2, List.mem_cons] at hp
        rcases hp with h | h
        · left
          exact h
        · right
          simp [h]
      · simp only [storeInsert, if_neg h1, if_neg h2, List.mem_cons] at hp
        rcases hp with h | h
        · right
          simp [h]
        · rcases ih h with h' | h'
          · left
            exact h'
          · right
            simp [h']

theorem storeInsert_WF {s : Store} (hwf : s.WF) (k : String) (r : VssDbRecord) :
    (storeInsert s k r).WF := by
  induction s with
  | nil => simp [storeInsert, Store.WF]
  | cons e rest ih =>
    obtain ⟨k0, r0⟩ := e
    have hwf' : Store.WF rest := (List.pairwise_cons.mp hwf).2
    have hlt : ∀ p ∈ rest, k0.data < p.1.data := (List.pairwise_cons.mp hwf).1
    rcases lt_trichotomy k.data k0.data with h1 | h1 | h1
    · unfold Store.WF
      simp only [storeInsert, if_pos h1]
      refine List.pairwise_cons.mpr ⟨?_, hwf⟩
      intro p hp
      rcases List.mem_cons.mp hp with h | h
      · rw [h]
        exact h1
      · exact lt_trans h1 (hlt p h)
    · have he : k = k0 := string_ext h1
      subst he
      unfold Store.WF
      simp only [storeInsert, if_neg (lt_irrefl k.data), if_pos rfl]
      exact List.pairwise_cons.mpr ⟨hlt, hwf'⟩
    · have hn1 : ¬ k.data < k0.data := not_lt_of_gt h1
      have hn2 : ¬ k = k0 := fun hc => ne_of_gt h1 (by rw [hc])
      unfold Store.WF
      simp only [storeInsert, if_neg hn1, if_neg hn2]
      refine List.pairwise_cons.mpr ⟨?_, ih hwf'⟩
      intro p hp
      rcases mem_storeInsert hp with h | h
      · rw [h]
        exact h1
      · exact hlt p h

theorem storeRemove_sublist (s : Store) (k : String) : List.Sublist (storeRemove s k) s := by
  induction s with
  | nil => simp [storeRemove]
  | cons e rest ih =>
    obtain ⟨k0, r0⟩ := e
    by_cases h : k = k0
    · simp only [storeRemove, if_pos h]
      exact List.sublist_cons_self _ _
    · simp only [storeRemove, if_neg h]
      exact List.Sublist.cons₂ _ ih

theorem storeRemove_WF {s : Store} (hwf : s.WF) (k : String) :
    (storeRemove s k).WF :=
  List.Pairwise.sublist (storeRemove_sublist s k) hwf

/- ----------------------------------------------- -/
/- in_memory_store.rs: operations of the backend.  -/
/- ----------------------------------------------- -/

/-- in_memory_store.rs `build_storage_key`: `format!("{}#{}#{}", ...)`. -/
def build_storage_key (user_token store_id key : String) : String :=
  user_token ++ "#" ++ store_id ++ "#" ++ key

/-- The namespace part `format!("{}#{}#", user_token, store_id)` of a storage
key (whose length is the `prefix_len` used by `list_key_versions`). -/
def namespaceKey (user_token store_id : String) : String :=
  user_token ++ "#" ++ store_id ++ "#"

theorem build_storage_key_eq (user_token store_id key : String) :
    build_storage_key user_token store_id key = namespaceKey user_token store_id ++ key := by
  simp [build_storage_key, namespaceKey, String.append_assoc]

/-- in_memory_store.rs `InMemoryBackendImpl::get_current_global_version`. -/
def get_current_global_version (guard : Store) (user_token store_id : String) : Int :=
  match storeGet guard (build_storage_key user_token store_id GLOBAL_VERSION_KEY) with
  | some r => r.version
  | none => 0

/-- in_memory_store.rs `validate_put_operation`. -/
def validate_put_operation (store : Store) (user_token store_id : String)
    (key_value : KeyValue) : Except VssError Unit :=
  let key := build_storage_key user_token store_id key_value.key
  if key_value.version = -1 then
    .ok ()
  else if key_value.version = 0 then
    if (storeGet store key).isSome then
      .error (.ConflictError
        ("Key " ++ key_value.key ++ " already exists for conditional insert"))
    else
      .ok ()
  else
    match storeGet store key with
    | some existing =>
      if existing.version = key_value.version then
        .ok ()
      else
        .error (.ConflictError
          ("Version mismatch for key " ++ key_value.key ++ ": expected " ++
            toString key_value.version ++ ", found " ++ toString existing.version))
    | none =>
      .error (.ConflictError
        ("Key " ++ key_value.key ++ " does not exist for conditional update"))

/-- in_memory_store.rs `validate_delete_operation`. -/
def validate_delete_operation (store : Store) (user_token store_id : String)
    (key_value : KeyValue) : Except VssError Unit :=
  let key := build_storage_key user_token store_id key_value.key
  if key_value.version = -1 then
    .ok ()
  else
    match storeGet store key with
    | some existing =>
      if existing.version = key_value.version then
        .ok ()
      else
        .error (.ConflictError
          ("Version mismatch for delete key " ++ key_value.key ++ ": expected " ++
            toString key_value.version ++ ", found " ++ toString existing.version))
    | none =>
      .error (.ConflictError
        ("Key " ++ key_value.key ++ " does not exist for conditional delete"))

/-- in_memory_store.rs `execute_put_object`.  The source samples `Utc::now()`
inside the call; the instant is passed here as `now`. -/
def execute_put_object (store : Store) (user_token store_id : String)
    (key_value : KeyValue) (now : Nat) : Store :=
  let key := build_storage_key user_token store_id key_value.key
  match storeGet store key with
  | some existing =>
    storeInsert store key
      { existing with
        version := if key_value.version = -1 then INITIAL_RECORD_VERSION
                   else satAdd1 existing.version
        value := key_value.value
        last_updated_at := now }
  | none =>
    storeInsert store key
      { user_token := user_token
        store_id := store_id
        key := key_value.key
        value := key_value.value
        version := INITIAL_RECORD_VERSION
        created_at := now
        last_updated_at := now }

/-- in_memory_store.rs `execute_delete_object`. -/
def execute_delete_object (store : Store) (user_token store_id : String)
    (key_value : KeyValue) : Store :=
  storeRemove store (build_storage_key user_token store_id key_value.key)

/-- Sequence a list of validations, stopping at the first error, as the
`for` loops with `?` in `InMemoryBackendImpl::put` do. -/
def validateAll (f : KeyValue → Except VssError Unit) : List KeyValue → Except VssError Unit
  | [] => .ok ()
  | kv :: rest =>
    match f kv with
    | .error e => .error e
    | .ok () => validateAll f rest

/-- The sentinel `KeyValue` built by `InMemoryBackendImpl::put` for a request
global_version. -/
def globalKeyValue (version : Int) : KeyValue :=
  { key := GLOBAL_VERSION_KEY, value := [], version := version }

/-- in_memory_store.rs `InMemoryBackendImpl::get`. -/
def inMemoryGet (user_token : String) (request : GetObjectRequest) (store : Store) :
    Except VssError GetObjectResponse :=
  if request.key = GLOBAL_VERSION_KEY then
    let v := get_current_global_version store user_token request.store_id
    .ok { value := some { key := GLOBAL_VERSION_KEY, value := [], version := v } }
  else
    match storeGet store (build_storage_key user_token request.store_id request.key) with
    | some record =>
      .ok { value := some { key := record.key, value := record.value, version := record.version } }
    | none => .error (.NoSuchKeyError "Requested key not found.")

/-- in_memory_store.rs `InMemoryBackendImpl::put`: the returned store is the
guarded map when the call returns Ok; the mutation phase runs only after all
validations succeeded, exactly as in the source. -/
def inMemoryPut (user_token : String) (request : PutObjectRequest) (now : Nat)
    (store : Store) : Except VssError Store :=
  if request.transaction_items.length + request.delete_items.length >
      MAX_PUT_REQUEST_ITEM_COUNT then
    .error (.InvalidRequestError
      "Number of write items per request should be less than equal to 1000")
  else
    let store_id := request.store_id
    match (match request.global_version with
           | some version =>
             validate_put_operation store user_token store_id (globalKeyValue version)
           | none => .ok ()) with
    | .error e => .error e
    | .ok () =>
      match validateAll (validate_put_operation store user_token store_id)
          request.transaction_items with
      | .error e => .error e
      | .ok () =>
        match validateAll (validate_delete_operation store user_token store_id)
            request.delete_items with
        | .error e => .error e
        | .ok () =>
          let s1 := request.transaction_items.foldl
            (fun acc kv => execute_put_object acc user_token store_id kv now) store
          let s2 := request.delete_items.foldl
            (fun acc kv => execute_delete_object acc user_token store_id kv) s1
          let s3 := match request.global_version with
            | some version =>
              execute_put_object s2 user_token store_id (globalKeyValue version) now
            | none => s2
          .ok s3

/-- The guarded map after a call to `InMemoryBackendImpl::put`: the map is
mutated only on the Ok path (validation borrows it immutably). -/
def inMemoryPutState (user_token : String) (request : PutObjectRequest) (now : Nat)
    (store : Store) : Store :=
  match inMemoryPut user_token request now store with
  | .ok s => s
  | .error _ => store

/-- in_memory_store.rs `InMemoryBackendImpl::delete`: no version check at
all; the storage key is removed unconditionally. -/
def inMemoryDelete (user_token : String) (request : DeleteObjectRequest)
    (store : Store) : Except VssError Store :=
  match request.key_value with
  | none => .error (.InvalidRequestError "key_value missing in DeleteObjectRequest")
  | some key_value =>
    .ok (execute_delete_object store user_token request.store_id key_value)

/-- The guarded map after a call to `InMemoryBackendImpl::delete`. -/
def inMemoryDeleteState (user_token : String) (request : DeleteObjectRequest)
    (store : Store) : Store :=
  match inMemoryDelete user_token request store with
  | .ok s => s
  | .error _ => store

/-- The filter used in `list_key_versions`:
`storage_key.starts_with(&storage_prefix) && *storage_key != &global_key`. -/
def lkvPred (storagePfx globalKey : String) (e : String × VssDbRecord) : Bool :=
  strStartsWith e.1 storagePfx && e.1 ≠ globalKey

/-- in_memory_store.rs `InMemoryBackendImpl::list_key_versions`.  The source
returns Result but has no error path. -/
def inMemoryListKeyVersions (user_token : String) (request : ListKeyVersionsRequest)
    (store : Store) : ListKeyVersionsResponse :=
  let store_id := request.store_id
  let key_pfx := request.key_pfx.getD ""
  let page_size := request.page_size.getD LIST_KEY_VERSIONS_MAX_PAGE_SIZE
  let limit : Nat := usizeOfI32 (min page_size LIST_KEY_VERSIONS_MAX_PAGE_SIZE)
  let offset : Nat := ((request.page_token.bind parseUsize?).getD 0)
  let global_version :=
    if offset = 0 then some (get_current_global_version store user_token store_id)
    else none
  let storagePfx := build_storage_key user_token store_id key_pfx
  let globalKey := build_storage_key user_token store_id GLOBAL_VERSION_KEY
  let pfxLen := (namespaceKey user_token store_id).length
  let page_items : List KeyValue :=
    (((store.filter (lkvPred storagePfx globalKey)).drop offset).take limit).map
      (fun e => { key := strDrop e.1 pfxLen, value := [], version := e.2.version })
  let next_offset := offset + page_items.length
  let next_page_token :=
    if page_items.isEmpty then some "" else some (natToString next_offset)
  { key_versions := page_items, next_page_token := next_page_token,
    global_version := global_version }

/- ------------------------------------------------------------------ -/
/- postgres_store.rs: the vss_db table and the SQL statements used by -/
/- the backend, modelled row by row with affected-row counts.         -/
/- ------------------------------------------------------------------ -/

/-- The vss_db table: a list of rows; the primary key is
(user_token, store_id, key). -/
abbrev PgTable := List VssDbRecord

/-- Primary-key uniqueness of the table. -/
def PgTable.WF (t : PgTable) : Prop :=
  List.Pairwise
    (fun a b => ¬ (a.user_token = b.user_token ∧ a.store_id = b.store_id ∧ a.key = b.key)) t

instance (t : PgTable) : Decidable t.WF := by
  unfold PgTable.WF
  infer_instance

/-- The WHERE clause `user_token = $ AND store_id = $ AND key = $`. -/
def pgRowMatches (ut sid k : String) (r : VssDbRecord) : Bool :=
  r.user_token == ut && r.store_id == sid && r.key == k

/-- Row lookup by primary key (used by `PostgresBackend::get`). -/
def pgFind (t : PgTable) (ut sid k : String) : Option VssDbRecord :=
  t.find? (pgRowMatches ut sid k)

/-- postgres_store.rs `build_vss_record`: the record carries the requested
version verbatim; both timestamps are `Utc::now()`. -/
def build_vss_record (user_token store_id : String) (kv : KeyValue) (now : Nat) :
    VssDbRecord :=
  { user_token := user_token, store_id := store_id, key := kv.key,
    value := kv.value, version := kv.version, created_at := now,
    last_updated_at := now }

/-- `execute_non_conditional_upsert`: INSERT .. VALUES (.., 1, ..)
ON CONFLICT (pk) DO UPDATE SET value, version = 1, last_updated_at.
Affects exactly one row. -/
def pgNonConditionalUpsert (t : PgTable) (vrec : VssDbRecord) : PgTable × Nat :=
  let hit := pgRowMatches vrec.user_token vrec.store_id vrec.key
  if (t.find? hit).isSome then
    (t.map (fun r =>
      if hit r then
        { r with value := vrec.value, version := INITIAL_RECORD_VERSION,
                 last_updated_at := vrec.last_updated_at }
      else r), 1)
  else
    (t ++ [{ vrec with version := INITIAL_RECORD_VERSION }], 1)

/-- `execute_conditional_insert`: INSERT .. VALUES (.., 1, ..)
ON CONFLICT DO NOTHING.  Zero rows when the key already exists. -/
def pgConditionalInsert (t : PgTable) (vrec : VssDbRecord) : PgTable × Nat :=
  let hit := pgRowMatches vrec.user_token vrec.store_id vrec.key
  if (t.find? hit).isSome then (t, 0)
  else (t ++ [{ vrec with version := INITIAL_RECORD_VERSION }], 1)

/-- `execute_conditional_update`: UPDATE .. SET value, version =
`vrec.version.saturating_add(1)`, last_updated_at WHERE pk AND version =
`vrec.version`.  The affected-row count is the number of matching rows. -/
def pgConditionalUpdate (t : PgTable) (vrec : VssDbRecord) : PgTable × Nat :=
  let hit := fun r => pgRowMatches vrec.user_token vrec.store_id vrec.key r &&
    r.version == vrec.version
  ((t.map (fun r =>
      if hit r then
        { r with value := vrec.value, version := satAdd1 vrec.version,
                 last_updated_at := vrec.last_updated_at }
      else r)),
   (t.filter hit).length)

/-- `execute_put_object_query`. -/
def pgExecutePutObjectQuery (t : PgTable) (vrec : VssDbRecord) : PgTable × Nat :=
  if vrec.version = -1 then pgNonConditionalUpsert t vrec
  else if vrec.version = 0 then pgConditionalInsert t vrec
  else pgConditionalUpdate t vrec

/-- `execute_non_conditional_delete`: DELETE WHERE pk. -/
def pgNonConditionalDelete (t : PgTable) (vrec : VssDbRecord) : PgTable × Nat :=
  let hit := pgRowMatches vrec.user_token vrec.store_id vrec.key
  (t.filter (fun r => ! hit r), (t.filter hit).length)

/-- `execute_conditional_delete`: DELETE WHERE pk AND version = $. -/
def pgConditionalDelete (t : PgTable) (vrec : VssDbRecord) : PgTable × Nat :=
  let hit := fun r => pgRowMatches vrec.user_token vrec.store_id vrec.key r &&
    r.version == vrec.version
  (t.filter (fun r => ! hit r), (t.filter hit).length)

/-- `execute_delete_object_query`. -/
def pgExecuteDeleteObjectQuery (t : PgTable) (vrec : VssDbRecord) : PgTable × Nat :=
  if vrec.version = -1 then pgNonConditionalDelete t vrec
  else pgConditionalDelete t vrec

/-- Run a batch of statements inside the transaction, collecting the
affected-row counts in order. -/
def pgExecAll (f : PgTable → VssDbRecord → PgTable × Nat) (t : PgTable) :
    List VssDbRecord → PgTable × List Nat
  | [] => (t, [])
  | r :: rest =>
    let step := f t r
    let next := pgExecAll f step.1 rest
    (next.1, step.2 :: next.2)

/-- postgres_store.rs `PostgresBackend::put`: items (then the sentinel record,
if a global_version is present) are executed as puts, then the delete items;
if any affected-row count is zero the transaction is rolled back (the table
is unchanged) and Conflict is returned, otherwise the transaction commits. -/
def pgPut (user_token : String) (request : PutObjectRequest) (now : Nat)
    (t : PgTable) : Except VssError PgTable :=
  if request.transaction_items.length + request.delete_items.length >
      MAX_PUT_REQUEST_ITEM_COUNT then
    .error (.InvalidRequestError
      "Number of write items per request should be less than equal to 1000")
  else
    let store_id := request.store_id
    let vss_put_records :=
      request.transaction_items.map (fun kv => build_vss_record user_token store_id kv now) ++
        (match request.global_version with
         | some g => [build_vss_record user_token store_id (globalKeyValue g) now]
         | none => [])
    let vss_delete_records :=
      request.delete_items.map (fun kv => build_vss_record user_token store_id kv now)
    let puts := pgExecAll pgExecutePutObjectQuery t vss_put_records
    let dels := pgExecAll pgExecuteDeleteObjectQuery puts.1 vss_delete_records
    if (puts.2 ++ dels.2).any (fun n => n == 0) then
      .error (.ConflictError
        "Transaction could not be completed due to a possible conflict")
    else
      .ok dels.1

/-- The visible table after `PostgresBackend::put`: on the error path the
transaction was rolled back (or never committed), so the table is unchanged. -/
def pgPutState (user_token : String) (request : PutObjectRequest) (now : Nat)
    (t : PgTable) : PgTable :=
  match pgPut user_token request now t with
  | .ok t2 => t2
  | .error _ => t

/-- postgres_store.rs `PostgresBackend::delete`: a zero affected-row count
rolls the transaction back but still returns Ok. -/
def pgDelete (user_token : String) (request : DeleteObjectRequest) (now : Nat)
    (t : PgTable) : Except VssError PgTable :=
  match request.key_value with
  | none => .error (.InvalidRequestError "key_value missing in DeleteObjectRequest")
  | some key_value =>
    let vrec := build_vss_record user_token request.store_id key_value now
    let step := pgExecuteDeleteObjectQuery t vrec
    if step.2 = 0 then .ok t else .ok step.1

/-- postgres_store.rs `PostgresBackend::get`. -/
def pgGet (user_token : String) (request : GetObjectRequest) (t : PgTable) :
    Except VssError GetObjectResponse :=
  match pgFind t user_token request.store_id request.key with
  | some row =>
    .ok { value := some { key := row.key, value := row.value, version := row.version } }
  | none =>
    if request.key = GLOBAL_VERSION_KEY then
      .ok { value := some { key := GLOBAL_VERSION_KEY, value := [], version := 0 } }
    else
      .error (.NoSuchKeyError "Requested key not found.")

/-- Ascending key order used by ORDER BY key. -/
def pgKeyLE (a b : VssDbRecord) : Bool := decide (a.key.data ≤ b.key.data)

/-- Ordered insertion used to model ORDER BY key. -/
def pgInsertSorted (r : VssDbRecord) : List VssDbRecord → List VssDbRecord
  | [] => [r]
  | x :: xs => if pgKeyLE r x then r :: x :: xs else x :: pgInsertSorted r xs

/-- Model of `ORDER BY key` (SQL does not specify the order of ties):
insertion sort by ascending key. -/
def pgSortByKey : List VssDbRecord → List VssDbRecord
  | [] => []
  | x :: xs => pgInsertSorted x (pgSortByKey xs)

/-- The WHERE clause of the list query:
`user_token = $1 AND store_id = $2 AND key > $3 AND key LIKE $4` with
$4 = `format!("{}%", key_prefix)` (the prefix is assumed free of LIKE
wildcards, so LIKE is a prefix test). -/
def pgListWhere (user_token store_id token key_like : String) (r : VssDbRecord) : Bool :=
  r.user_token == user_token && r.store_id == store_id &&
    decide (token.data < r.key.data) && strStartsWith r.key key_like

/-- postgres_store.rs `PostgresBackend::list_key_versions`.  On the first
page the sentinel version is read through `self.get` before the page query.
PostgreSQL rejects a negative LIMIT with an error, which the source maps to
an internal error. -/
def pgListKeyVersions (user_token : String) (request : ListKeyVersionsRequest)
    (t : PgTable) : Except VssError ListKeyVersionsResponse :=
  let store_id := request.store_id
  let page_size := request.page_size.getD i32max
  let global_version : Option Int :=
    if request.page_token.isNone then
      some (match pgFind t user_token store_id GLOBAL_VERSION_KEY with
            | some row => row.version
            | none => 0)
    else none
  let limit : Int := min page_size LIST_KEY_VERSIONS_MAX_PAGE_SIZE
  if limit < 0 then
    .error (.InternalServerError "Query error: LIMIT must not be negative")
  else
    let key_like := request.key_pfx.getD ""
    let token := request.page_token.getD ""
    let rows := (pgSortByKey
      (t.filter (pgListWhere user_token store_id token key_like))).take limit.toNat
    let key_versions := (rows.filter (fun r => r.key ≠ GLOBAL_VERSION_KEY)).map
      (fun r => { key := r.key, value := ([] : List Nat), version := r.version })
    let next_page_token :=
      if key_versions.isEmpty then some "" else (key_versions.getLast?).map (fun kv => kv.key)
    .ok { key_versions := key_versions, next_page_token := next_page_token,
          global_version := global_version }

/- ------------------------------------------------------------------- -/
/- vss_service.rs and auth-impls: the router's header map and the      -/
/- Authorization lookups of the two bundled authenticators.            -/
/- ------------------------------------------------------------------- -/

/-- api/src/auth.rs `AuthResponse`. -/
structure AuthResponse where
  user_token : String
deriving DecidableEq, Repr

/-- Lowercasing of a string, character by character. -/
def lowerStr (s : String) : String := ⟨s.data.map Char.toLower⟩

/-- vss_service.rs `handle_request`: the headers map handed to the
authenticator.  hyper's `HeaderName` renders in lowercase (the source
comments on and `debug_assert!`s exactly this), so every key of the map is
the lowercased header name. -/
def routerHeadersMap (headers : List (String × String)) : List (String × String) :=
  headers.map (fun p => (lowerStr p.1, p.2))

/-- `HashMap::get` on the collected header map (first match; header names in
a request are unique after hyper normalisation). -/
def headersGet (m : List (String × String)) (k : String) : Option String :=
  (m.find? (fun p => p.1 == k)).map (fun p => p.2)

/-- auth-impls/src/lib.rs `BEARER_PREFIX`. -/
def BEARER_PREFIX : String := "Bearer "

/-- Model of Rust `str::strip_prefix`. -/
def stripPfx (s p : String) : Option String :=
  if strStartsWith s p then some (strDrop s p.length) else none

/-- auth-impls/src/lib.rs `JWTAuthorizer::verify`.  The cryptographic token
decode (jsonwebtoken crate, external) is a parameter returning either the
subject claim or an error message. -/
def jwtVerify (decodeSub : String → Except String String)
    (headers_map : List (String × String)) : Except VssError AuthResponse :=
  match headersGet headers_map "Authorization" with
  | none => .error (.AuthError "Authorization header not found.")
  | some auth_header =>
    match stripPfx auth_header BEARER_PREFIX with
    | none => .error (.AuthError "Invalid token format.")
    | some token =>
      match decodeSub token with
      | .error e => .error (.AuthError ("Authentication failure. " ++ e))
      | .ok sub => .ok { user_token := sub }

/-- auth-impls/src/signature.rs `SignatureValidatingAuthorizer::verify`.
Everything after the header lookup (length and hex checks, ECDSA
verification, time window) is a parameter. -/
def sigVerify (checkProof : String → Except VssError AuthResponse)
    (headers_map : List (String × String)) : Except VssError AuthResponse :=
  match headersGet headers_map "Authorization" with
  | none => .error (.AuthError "Authorization header not found.")
  | some auth_header => checkProof auth_header

deriving instance DecidableEq for Except

/-- Demo record used by witnesses. -/
def demoRecA : VssDbRecord :=
  { user_token := "u", store_id := "s", key := "a", value := [],
    version := 1, created_at := 0, last_updated_at := 0 }

/-- Demo sentinel record used by witnesses. -/
def demoRecG : VssDbRecord :=
  { user_token := "u", store_id := "s", key := "global_version", value := [],
    version := 3, created_at := 0, last_updated_at := 0 }

/-- Demo store used by witnesses: one real record and the sentinel. -/
def demoStore : Store := [("u#s#a", demoRecA), ("u#s#global_version", demoRecG)]

/-- Demo table used by witnesses: one real row and the sentinel row. -/
def demoTable : PgTable := [demoRecA, demoRecG]

/-- The all-defaults list request used by witnesses. -/
def demoListRequest : ListKeyVersionsRequest :=
  { store_id := "s", key_pfx := none, page_size := none, page_token := none }

/- ----------------------- -/
/- Theorems for the claims -/
/- ----------------------- -/

/-- Claim C1: every Put that fails with Conflict leaves the store state
identical to the state before the call, for both backends: no
transaction_items entry is written, no delete_items entry is removed, and
the global_version sentinel is not advanced.  In the in-memory backend all
validation precedes any mutation and the mutation phase is infallible; in
the Postgres backend a zero affected-row count rolls the transaction back
before commit. -/
theorem c1_put_conflict_atomicity (user_token : String) (request : PutObjectRequest)
    (now : Nat) (store : Store) (t : PgTable) (e1 e2 : VssError)
    (h1 : inMemoryPut user_token request now store = .error e1)
    (hc1 : e1.isConflict = true)
    (h2 : pgPut user_token request now t = .error e2)
    (hc2 : e2.isConflict = true) :
    inMemoryPutState user_token request now store = store ∧
    pgPutState user_token request now t = t := by
  constructor
  · unfold inMemoryPutState
    rw [h1]
  · unfold pgPutState
    rw [h2]

/-- Witness for C1: a conditional update of a missing key conflicts on both
backends and leaves the empty store empty. -/
theorem c1_put_conflict_atomicity_witness :
    inMemoryPutState "u"
      { store_id := "s", global_version := none,
        transaction_items := [{ key := "k", value := [], version := 1 }],
        delete_items := [] } 0 [] = [] ∧
    pgPutState "u"
      { store_id := "s", global_version := none,
        transaction_items := [{ key := "k", value := [], version := 1 }],
        delete_items := [] } 0 [] = [] :=
  c1_put_conflict_atomicity "u"
    { store_id := "s", global_version := none,
      transaction_items := [{ key := "k", value := [], version := 1 }],
      delete_items := [] } 0 [] []
    (.ConflictError "Key k does not exist for conditional update")
    (.ConflictError "Transaction could not be completed due to a possible conflict")
    (by decide) (by decide) (by decide) (by decide)

theorem toLower_ne_upper_A (c : Char) : Char.toLower c ≠ 'A' := by
  intro h
  simp only [Char.toLower] at h
  by_cases hb : c.toNat ≥ 65 ∧ c.toNat ≤ 90
  · rw [if_pos hb] at h
    have hv : Nat.isValidChar (c.toNat + 32) := Or.inl (by omega)
    have ht : (Char.ofNat (c.toNat + 32)).toNat = c.toNat + 32 := by
      unfold Char.ofNat
      rw [dif_pos hv]
      rfl
    rw [h] at ht
    have : ('A').toNat = 65 := by decide
    omega
  · rw [if_neg hb] at h
    subst h
    exact hb (by constructor <;> decide)

theorem lowerStr_ne_authorization (s : String) : lowerStr s ≠ "Authorization" := by
  intro h
  have hd : (lowerStr s).data = ("Authorization" : String).data := by rw [h]
  have hd2 : s.data.map Char.toLower = 'A' :: ("uthorization" : String).data := hd
  cases hs : s.data with
  | nil =>
    rw [hs] at hd2
    exact absurd hd2 (by simp)
  | cons c cs =>
    rw [hs] at hd2
    simp only [List.map_cons] at hd2
    injection hd2 with hh ht
    exact toLower_ne_upper_A c hh

theorem headersGet_routerMap_authorization (headers : List (String × String)) :
    headersGet (routerHeadersMap headers) "Authorization" = none := by
  unfold headersGet routerHeadersMap
  rw [List.find?_map]
  have hn : List.find?
      ((fun p => p.1 == "Authorization") ∘ (fun p : String × String => (lowerStr p.1, p.2)))
      headers = none := by
    rw [List.find?_eq_none]
    intro x hx
    simp only [Function.comp_apply, beq_iff_eq]
    exact lowerStr_ne_authorization x.1
  rw [hn]
  rfl

/-- Claim C10: the router hands the authenticators a map whose keys are the
lowercased header names, but both bundled authenticators look the header up
under the capitalised name "Authorization"; the lookup therefore never
succeeds and every request is rejected with the Auth failure
"Authorization header not found." — contradicting the claim that such a
request is never rejected with that failure.  This holds for every header
list and for every behaviour of the external cryptographic checks. -/
theorem c10_auth_header_never_found (headers : List (String × String))
    (decodeSub : String → Except String String)
    (checkProof : String → Except VssError AuthResponse) :
    jwtVerify decodeSub (routerHeadersMap headers) =
      .error (.AuthError "Authorization header not found.") ∧
    sigVerify checkProof (routerHeadersMap headers) =
      .error (.AuthError "Authorization header not found.") := by
  have h := headersGet_routerMap_authorization headers
  constructor
  · unfold jwtVerify
    rw [h]
  · unfold sigVerify
    rw [h]

theorem strDrop_pfx_global {nsK sk : String} (hpfx : nsK.data <+: sk.data)
    (h : strDrop sk nsK.length = GLOBAL_VERSION_KEY) :
    sk = nsK ++ GLOBAL_VERSION_KEY := by
  obtain ⟨rest, hrest⟩ := hpfx
  have hsk : sk = nsK ++ ⟨rest⟩ := by
    apply string_ext
    rw [String.data_append]
    exact hrest.symm
  rw [hsk] at h ⊢
  rw [strDrop_append] at h
  rw [h]

/-- Claim C8: no element of a ListKeyVersions response has key
"global_version", in either backend, for every store state, prefix,
page size and page token. -/
theorem c8_sentinel_never_listed (user_token : String) (request : ListKeyVersionsRequest)
    (store : Store) (t : PgTable) :
    (∀ kv ∈ (inMemoryListKeyVersions user_token request store).key_versions,
      kv.key ≠ GLOBAL_VERSION_KEY) ∧
    (∀ resp, pgListKeyVersions user_token request t = .ok resp →
      ∀ kv ∈ resp.key_versions, kv.key ≠ GLOBAL_VERSION_KEY) := by
  constructor
  · intro kv hkv
    simp only [inMemoryListKeyVersions] at hkv
    rw [List.mem_map] at hkv
    obtain ⟨e, he, hkve⟩ := hkv
    have hef : e ∈ store.filter
        (lkvPred (build_storage_key user_token request.store_id (request.key_pfx.getD ""))
          (build_storage_key user_token request.store_id GLOBAL_VERSION_KEY)) :=
      List.mem_of_mem_drop (List.mem_of_mem_take he)
    have hpred := (List.mem_filter.mp hef).2
    simp only [lkvPred, Bool.and_eq_true, decide_eq_true_eq] at hpred
    obtain ⟨hsw, hne⟩ := hpred
    intro hglobal
    have hkey : strDrop e.1 (namespaceKey user_token request.store_id).length =
        GLOBAL_VERSION_KEY := by
      rw [← hglobal, ← hkve]
    have hnspfx : (namespaceKey user_token request.store_id).data <+: e.1.data := by
      refine List.IsPrefix.trans ?_ (strStartsWith_iff.mp hsw)
      rw [build_storage_key_eq, String.data_append]
      exact List.prefix_append _ _
    have := strDrop_pfx_global hnspfx hkey
    rw [← build_storage_key_eq] at this
    exact hne this
  · intro resp hresp kv hkv
    simp only [pgListKeyVersions] at hresp
    by_cases hl : (min (request.page_size.getD i32max) LIST_KEY_VERSIONS_MAX_PAGE_SIZE) < 0
    · rw [if_pos hl] at hresp
      simp at hresp
    · rw [if_neg hl] at hresp
      injection hresp with hresp
      rw [← hresp] at hkv
      simp only at hkv
      rw [List.mem_map] at hkv
      obtain ⟨r, hr2, hkvr⟩ := hkv
      have hrf := (List.mem_filter.mp hr2).2
      simp only [decide_eq_true_eq] at hrf
      rw [← hkvr]
      exact hrf

/-- Witness for C8 on a store and table holding one real record and the
sentinel. -/
theorem c8_sentinel_never_listed_witness :
    (({ key := "a", value := [], version := 1 } : KeyValue).key ≠ GLOBAL_VERSION_KEY) ∧
    (({ key := "a", value := [], version := 1 } : KeyValue).key ≠ GLOBAL_VERSION_KEY) := by
  constructor
  · exact (c8_sentinel_never_listed "u" demoListRequest demoStore demoTable).1
      { key := "a", value := [], version := 1 } (by decide)
  · exact (c8_sentinel_never_listed "u" demoListRequest demoStore demoTable).2
      { key_versions := [{ key := "a", value := [], version := 1 }],
        next_page_token := some "a", global_version := some 3 }
      (by decide)
      { key := "a", value := [], version := 1 } (by decide)

/-- Claim C7 (amended): for every ListKeyVersions request whose page_size is
absent or nonnegative, both backends return at most 100 key_versions
entries — the effective limit is min(requested or default, 100).  A
negative page_size escapes the cap in the in-memory backend because the i32
minimum is cast `as usize` (sign extension), and in Postgres produces a
negative SQL LIMIT, an error. -/
theorem c7_page_cap (user_token : String) (request : ListKeyVersionsRequest)
    (store : Store) (t : PgTable)
    (h1 : 0 ≤ request.page_size.getD LIST_KEY_VERSIONS_MAX_PAGE_SIZE)
    (h2 : 0 ≤ request.page_size.getD i32max) :
    (inMemoryListKeyVersions user_token request store).key_versions.length ≤ 100 ∧
    (∀ resp, pgListKeyVersions user_token request t = .ok resp →
      resp.key_versions.length ≤ 100) := by
  constructor
  · have hub : usizeOfI32 (min (request.page_size.getD LIST_KEY_VERSIONS_MAX_PAGE_SIZE)
        LIST_KEY_VERSIONS_MAX_PAGE_SIZE) ≤ 100 := by
      unfold usizeOfI32
      have hge : (0:Int) ≤ min (request.page_size.getD LIST_KEY_VERSIONS_MAX_PAGE_SIZE)
          LIST_KEY_VERSIONS_MAX_PAGE_SIZE := by
        refine le_min h1 ?_
        norm_num [LIST_KEY_VERSIONS_MAX_PAGE_SIZE]
      have hle : min (request.page_size.getD LIST_KEY_VERSIONS_MAX_PAGE_SIZE)
          LIST_KEY_VERSIONS_MAX_PAGE_SIZE ≤ 100 := by
        have hm := min_le_right (request.page_size.getD LIST_KEY_VERSIONS_MAX_PAGE_SIZE)
          LIST_KEY_VERSIONS_MAX_PAGE_SIZE
        simpa [LIST_KEY_VERSIONS_MAX_PAGE_SIZE] using hm
      rw [Int.emod_eq_of_lt hge (by omega)]
      omega
    simp only [inMemoryListKeyVersions]
    rw [List.length_map, List.length_take]
    exact le_trans (Nat.min_le_left _ _) hub
  · intro resp hresp
    simp only [pgListKeyVersions] at hresp
    by_cases hl : (min (request.page_size.getD i32max) LIST_KEY_VERSIONS_MAX_PAGE_SIZE) < 0
    · rw [if_pos hl] at hresp
      simp at hresp
    · rw [if_neg hl] at hresp
      injection hresp with hresp
      rw [← hresp]
      simp only
      rw [List.length_map]
      refine le_trans (List.length_filter_le _ _) ?_
      rw [List.length_take]
      refine le_trans (Nat.min_le_left _ _) ?_
      have hle : min (request.page_size.getD i32max) LIST_KEY_VERSIONS_MAX_PAGE_SIZE ≤ 100 := by
        have hm := min_le_right (request.page_size.getD i32max) LIST_KEY_VERSIONS_MAX_PAGE_SIZE
        simpa [LIST_KEY_VERSIONS_MAX_PAGE_SIZE] using hm
      omega

/-- Witness for C7 at the default request on the demo store and table. -/
theorem c7_page_cap_witness :
    (inMemoryListKeyVersions "u" demoListRequest demoStore).key_versions.length ≤ 100 := by
  exact (c7_page_cap "u" demoListRequest demoStore demoTable (by decide) (by decide)).1

/-- 101 distinct two-letter keys. -/
def cxKeys : List String := (List.range 101).map
  (fun i => ⟨[Char.ofNat (65 + i / 26), Char.ofNat (65 + i % 26)]⟩)

/-- A single Put request inserting 101 fresh keys (within the 1000-item
bound), used to reach a store with more than 100 records. -/
def cxPutRequest : PutObjectRequest :=
  { store_id := "s", global_version := none,
    transaction_items := cxKeys.map (fun k => { key := k, value := [], version := 0 }),
    delete_items := [] }

/-- The store reached from empty by the 101-key Put. -/
def cxStore : Store := inMemoryPutState "u" cxPutRequest 0 []

/-- A list request with page_size = -1. -/
def cxListRequest : ListKeyVersionsRequest :=
  { store_id := "s", key_pfx := none, page_size := some (-1), page_token := none }

set_option maxRecDepth 100000 in
set_option maxHeartbeats 4000000 in
/-- Counterexample to C7 as stated: on a reachable in-memory store with 101
records, a request with page_size = -1 returns 101 entries, more than 100. -/
theorem c7_page_cap_counterexample :
    (inMemoryListKeyVersions "u" cxListRequest cxStore).key_versions.length = 101 := by
  decide

theorem pgRowMatches_iff {ut sid k : String} {r : VssDbRecord} :
    pgRowMatches ut sid k r = true ↔
      r.user_token = ut ∧ r.store_id = sid ∧ r.key = k := by
  simp [pgRowMatches, Bool.and_eq_true, and_assoc]

theorem pg_pk_unique {t : PgTable} (hwf : t.WF) {r1 r2 : VssDbRecord} {ut sid k : String}
    (h1 : r1 ∈ t) (h2 : r2 ∈ t)
    (e1 : pgRowMatches ut sid k r1 = true) (e2 : pgRowMatches ut sid k r2 = true) :
    r1 = r2 := by
  by_cases heq : r1 = r2
  · exact heq
  · have hsym : Symmetric (fun a b : VssDbRecord =>
        ¬ (a.user_token = b.user_token ∧ a.store_id = b.store_id ∧ a.key = b.key)) := by
      intro a b hab hc
      exact hab ⟨hc.1.symm, hc.2.1.symm, hc.2.2.symm⟩
    obtain ⟨ha1, ha2, ha3⟩ := pgRowMatches_iff.mp e1
    obtain ⟨hb1, hb2, hb3⟩ := pgRowMatches_iff.mp e2
    exact absurd ⟨ha1.trans hb1.symm, ha2.trans hb2.symm, ha3.trans hb3.symm⟩
      (List.Pairwise.forall hsym hwf h1 h2 heq)

theorem pgFind_spec {t : PgTable} {ut sid k : String} {row : VssDbRecord}
    (h : pgFind t ut sid k = some row) :
    row ∈ t ∧ pgRowMatches ut sid k row = true :=
  ⟨List.mem_of_find?_eq_some h, List.find?_some h⟩

/-- Claim C3 (amended): standalone Delete never fails with Conflict, in
either backend.  The in-memory backend ignores the requested version
entirely and unconditionally removes whatever record the key has; the
Postgres backend deletes only when the stored version equals the request
version, and a conditional delete that matches no row (stored version
differs, or no record exists) is a successful no-op, never a Conflict. -/
theorem c3_standalone_delete (user_token store_id : String) (kv : KeyValue)
    (store : Store) (t : PgTable) (now : Nat) (hwf : PgTable.WF t) :
    (inMemoryDelete user_token { store_id := store_id, key_value := some kv } store =
      .ok (storeRemove store (build_storage_key user_token store_id kv.key))) ∧
    (∃ t2, pgDelete user_token { store_id := store_id, key_value := some kv } now t =
      .ok t2) ∧
    (∀ row, pgFind t user_token store_id kv.key = some row → row.version ≠ kv.version →
      0 ≤ kv.version →
      pgDelete user_token { store_id := store_id, key_value := some kv } now t = .ok t) ∧
    (pgFind t user_token store_id kv.key = none → 0 ≤ kv.version →
      pgDelete user_token { store_id := store_id, key_value := some kv } now t = .ok t) ∧
    (∀ row, pgFind t user_token store_id kv.key = some row → row.version = kv.version →
      0 ≤ kv.version →
      pgFind (t.filter (fun r =>
          ! (pgRowMatches user_token store_id kv.key r && r.version == kv.version)))
        user_token store_id kv.key = none ∧
      pgDelete user_token { store_id := store_id, key_value := some kv } now t =
        .ok (t.filter (fun r =>
          ! (pgRowMatches user_token store_id kv.key r && r.version == kv.version)))) := by
  refine ⟨rfl, ?_, ?_, ?_, ?_⟩
  · unfold pgDelete pgExecuteDeleteObjectQuery
    by_cases hv : kv.version = -1
    · simp only [build_vss_record, hv, if_pos]
      unfold pgNonConditionalDelete
      by_cases hz : (t.filter (pgRowMatches user_token store_id kv.key)).length = 0
      · exact ⟨t, by simp [hz]⟩
      · refine ⟨t.filter (fun r => ! pgRowMatches user_token store_id kv.key r), ?_⟩
        simp only [hz, if_neg]
        simp [hz]
    · simp only [build_vss_record, hv, if_neg]
      unfold pgConditionalDelete
      by_cases hz : (t.filter (fun r =>
          pgRowMatches user_token store_id kv.key r && r.version == kv.version)).length = 0
      · exact ⟨t, by simp [hz]⟩
      · refine ⟨t.filter (fun r =>
          ! (pgRowMatches user_token store_id kv.key r && r.version == kv.version)), ?_⟩
        simp [hz]
  · intro row hrow hne h0
    have hv : ¬ kv.version = -1 := by omega
    unfold pgDelete pgExecuteDeleteObjectQuery
    simp only [build_vss_record, hv, if_neg]
    unfold pgConditionalDelete
    have hz : (t.filter (fun r =>
        pgRowMatches user_token store_id kv.key r && r.version == kv.version)).length = 0 := by
      rw [List.length_eq_zero]
      rw [List.filter_eq_nil_iff]
      intro r hr
      intro hhit
      rw [Bool.and_eq_true] at hhit
      have := pg_pk_unique hwf hr (pgFind_spec hrow).1 hhit.1 (pgFind_spec hrow).2
      rw [this] at hhit
      have hveq : row.version = kv.version := by
        have := hhit.2
        simpa using this
      exact hne hveq
    simp [hz]
  · intro hnone h0
    have hv : ¬ kv.version = -1 := by omega
    unfold pgDelete pgExecuteDeleteObjectQuery
    simp only [build_vss_record, hv, if_neg]
    unfold pgConditionalDelete
    have hz : (t.filter (fun r =>
        pgRowMatches user_token store_id kv.key r && r.version == kv.version)).length = 0 := by
      rw [List.length_eq_zero]
      rw [List.filter_eq_nil_iff]
      intro r hr hhit
      rw [Bool.and_eq_true] at hhit
      simp only [pgFind] at hnone
      rw [List.find?_eq_none] at hnone
      exact hnone r hr hhit.1
    simp [hz]
  · intro row hrow hveq h0
    have hv : ¬ kv.version = -1 := by omega
    constructor
    · simp only [pgFind]
      rw [List.find?_eq_none]
      intro r hr
      rw [List.mem_filter] at hr
      intro hpk
      have := pg_pk_unique hwf hr.1 (pgFind_spec hrow).1 hpk (pgFind_spec hrow).2
      rw [this] at hr
      have := hr.2
      simp [(pgFind_spec hrow).2, hveq] at this
    · unfold pgDelete pgExecuteDeleteObjectQuery
      simp only [build_vss_record, hv, if_neg]
      unfold pgConditionalDelete
      have hz : ¬ (t.filter (fun r =>
          pgRowMatches user_token store_id kv.key r && r.version == kv.version)).length = 0 := by
        rw [List.length_eq_zero]
        intro hnil
        have : row ∈ t.filter (fun r =>
            pgRowMatches user_token store_id kv.key r && r.version == kv.version) := by
          rw [List.mem_filter]
          refine ⟨(pgFind_spec hrow).1, ?_⟩
          rw [Bool.and_eq_true]
          exact ⟨(pgFind_spec hrow).2, by simp [hveq]⟩
        rw [hnil] at this
        exact absurd this (List.not_mem_nil _)
      simp [hz]

/-- Demo record at version 5 for the C3 counterexample. -/
def cxDelRec : VssDbRecord :=
  { user_token := "u", store_id := "s", key := "a", value := [], version := 5,
    created_at := 0, last_updated_at := 0 }

/-- One-record store for the C3 counterexample. -/
def cxDelStore : Store := [("u#s#a", cxDelRec)]

/-- One-row table for the C3 counterexample. -/
def cxDelTable : PgTable := [cxDelRec]

/-- Counterexample to C3 as stated: a standalone Delete with version 3
against a record stored at version 5 does not fail with Conflict.  The
in-memory backend succeeds and even removes the record; the Postgres
backend succeeds and leaves the record unchanged. -/
theorem c3_standalone_delete_counterexample :
    inMemoryDelete "u"
      { store_id := "s", key_value := some { key := "a", value := [], version := 3 } }
      cxDelStore = .ok [] ∧
    pgDelete "u"
      { store_id := "s", key_value := some { key := "a", value := [], version := 3 } }
      0 cxDelTable = .ok cxDelTable := by
  constructor
  · decide
  · decide

/-- Witness for C3 on the same store and table. -/
theorem c3_standalone_delete_witness :
    (inMemoryDelete "u"
      { store_id := "s", key_value := some { key := "a", value := [], version := 3 } }
      cxDelStore =
      .ok (storeRemove cxDelStore (build_storage_key "u" "s" "a"))) ∧
    pgDelete "u"
      { store_id := "s", key_value := some { key := "a", value := [], version := 3 } }
      7 cxDelTable = .ok cxDelTable := by
  constructor
  · exact (c3_standalone_delete "u" "s" { key := "a", value := [], version := 3 }
      cxDelStore cxDelTable 7 (by decide)).1
  · exact (c3_standalone_delete "u" "s" { key := "a", value := [], version := 3 }
      cxDelStore cxDelTable 7 (by decide)).2.2.1 cxDelRec (by decide) (by decide) (by decide)

/-- A Put request with a single transaction item and no global_version. -/
def singlePutRequest (sid k : String) (v : List Nat) (w : Int) : PutObjectRequest :=
  { store_id := sid, global_version := none,
    transaction_items := [{ key := k, value := v, version := w }], delete_items := [] }

theorem inMemoryPut_single (ut sid k : String) (v : List Nat) (w : Int) (now : Nat)
    (s : Store) :
    inMemoryPut ut (singlePutRequest sid k v w) now s =
      match validate_put_operation s ut sid { key := k, value := v, version := w } with
      | .error e => .error e
      | .ok _ => .ok (execute_put_object s ut sid { key := k, value := v, version := w } now) := by
  cases hval : validate_put_operation s ut sid { key := k, value := v, version := w } with
  | error e =>
    simp [inMemoryPut, singlePutRequest, validateAll, MAX_PUT_REQUEST_ITEM_COUNT, hval]
  | ok u =>
    cases u
    simp [inMemoryPut, singlePutRequest, validateAll, MAX_PUT_REQUEST_ITEM_COUNT, hval]

theorem validate_put_pos_ok_iff {s : Store} {ut sid : String} {kv : KeyValue}
    (hw : 0 < kv.version) :
    validate_put_operation s ut sid kv = .ok () ↔
      ∃ r, storeGet s (build_storage_key ut sid kv.key) = some r ∧
        r.version = kv.version := by
  have hne1 : ¬ kv.version = -1 := by omega
  have hne0 : ¬ kv.version = 0 := by omega
  unfold validate_put_operation
  simp only [if_neg hne1, if_neg hne0]
  cases hget : storeGet s (build_storage_key ut sid kv.key) with
  | none =>
    simp
  | some existing =>
    by_cases hv : existing.version = kv.version
    · simp only [if_pos hv]
      constructor
      · intro _
        exact ⟨existing, rfl, hv⟩
      · intro _
        trivial
    · simp only [if_neg hv]
      constructor
      · intro hc
        exact absurd hc (by simp)
      · intro ⟨r, hr, hveq⟩
        injection hr with hr
        rw [hr] at hv
        exact absurd hveq hv

theorem validate_put_pos_err_conflict {s : Store} {ut sid : String} {kv : KeyValue}
    {e : VssError} (hw : 0 < kv.version)
    (h : validate_put_operation s ut sid kv = .error e) : e.isConflict = true := by
  have hne1 : ¬ kv.version = -1 := by omega
  have hne0 : ¬ kv.version = 0 := by omega
  unfold validate_put_operation at h
  simp only [if_neg hne1, if_neg hne0] at h
  cases hget : storeGet s (build_storage_key ut sid kv.key) with
  | none =>
    rw [hget] at h
    simp only at h
    injection h with h
    rw [← h]
    rfl
  | some existing =>
    rw [hget] at h
    simp only at h
    by_cases hv : existing.version = kv.version
    · rw [if_pos hv] at h
      exact absurd h (by simp)
    · rw [if_neg hv] at h
      injection h with h
      rw [← h]
      rfl

theorem pgPut_single (ut sid k : String) (v : List Nat) (w : Int) (now : Nat) (t : PgTable) :
    pgPut ut (singlePutRequest sid k v w) now t =
      if (pgExecutePutObjectQuery t
            (build_vss_record ut sid { key := k, value := v, version := w } now)).2 = 0 then
        .error (.ConflictError "Transaction could not be completed due to a possible conflict")
      else
        .ok (pgExecutePutObjectQuery t
          (build_vss_record ut sid { key := k, value := v, version := w } now)).1 := by
  by_cases hz : (pgExecutePutObjectQuery t
      (build_vss_record ut sid { key := k, value := v, version := w } now)).2 = 0
  · simp [pgPut, singlePutRequest, pgExecAll, MAX_PUT_REQUEST_ITEM_COUNT, hz]
  · simp [pgPut, singlePutRequest, pgExecAll, MAX_PUT_REQUEST_ITEM_COUNT, hz]

/-- The conditional-update predicate of the single-item put. -/
def pgCondUpdateHit (ut sid k : String) (w : Int) (r : VssDbRecord) : Bool :=
  pgRowMatches ut sid k r && r.version == w

theorem pgPut_single_pos (ut sid k : String) (v : List Nat) (w : Int) (now : Nat)
    (t : PgTable) (hne1 : ¬ w = -1) (hne0 : ¬ w = 0) :
    pgPut ut (singlePutRequest sid k v w) now t =
      if (t.filter (pgCondUpdateHit ut sid k w)).length = 0 then
        .error (.ConflictError "Transaction could not be completed due to a possible conflict")
      else
        .ok (t.map (fun r =>
          if pgCondUpdateHit ut sid k w r then
            { r with value := v, version := satAdd1 w, last_updated_at := now }
          else r)) := by
  rw [pgPut_single]
  unfold pgExecutePutObjectQuery
  rw [if_neg (show ¬ (build_vss_record ut sid
    { key := k, value := v, version := w } now).version = -1 from hne1)]
  rw [if_neg (show ¬ (build_vss_record ut sid
    { key := k, value := v, version := w } now).version = 0 from hne0)]
  rfl

theorem pgFind_map_preserve (t : PgTable) (ut sid k : String)
    (f : VssDbRecord → VssDbRecord)
    (hf : ∀ r, (f r).user_token = r.user_token ∧ (f r).store_id = r.store_id ∧
      (f r).key = r.key) :
    pgFind (t.map f) ut sid k = (pgFind t ut sid k).map f := by
  unfold pgFind
  rw [List.find?_map]
  have hp : (fun r => pgRowMatches ut sid k r) ∘ f = fun r => pgRowMatches ut sid k r := by
    funext r
    simp only [Function.comp_apply]
    unfold pgRowMatches
    rw [(hf r).1, (hf r).2.1, (hf r).2.2]
  rw [show ((fun p => pgRowMatches ut sid k p) ∘ f) = (fun r => pgRowMatches ut sid k r) from hp]

theorem pgFind_of_mem_hit {t : PgTable} (hwf : t.WF) {ut sid k : String} {w : Int}
    {r : VssDbRecord} (hrt : r ∈ t) (hhit : pgCondUpdateHit ut sid k w r = true) :
    pgFind t ut sid k = some r ∧ r.version = w := by
  rw [pgCondUpdateHit, Bool.and_eq_true] at hhit
  obtain ⟨hpk, hv⟩ := hhit
  have hsome : (List.find? (pgRowMatches ut sid k) t).isSome := by
    rw [List.find?_isSome]
    exact ⟨r, hrt, hpk⟩
  obtain ⟨row, hrow⟩ := Option.isSome_iff_exists.mp hsome
  have hru : row = r := pg_pk_unique hwf (List.mem_of_find?_eq_some hrow) hrt
    (List.find?_some hrow) hpk
  refine ⟨?_, by simpa using hv⟩
  show List.find? (pgRowMatches ut sid k) t = some r
  rw [hrow, hru]

/-- Claim C2 (amended): a Put item with requested version w > 0 succeeds
exactly when a record is stored at version w (otherwise it fails with
Conflict, in particular when no record exists), and on success the stored
version becomes `saturating_add(1)` of w — that is w + 1 for every
w < 2^63 - 1, but w itself at the i64 maximum, where both backends
saturate instead of producing w + 1.  Holds for both backends. -/
theorem c2_conditional_update_semantics (ut sid k : String) (v : List Nat) (w : Int)
    (now : Nat) (s : Store) (t : PgTable) (hw : 0 < w) (hwf : PgTable.WF t) :
    ((inMemoryPut ut (singlePutRequest sid k v w) now s).isOk = true ↔
      ∃ r, storeGet s (build_storage_key ut sid k) = some r ∧ r.version = w) ∧
    (∀ e, inMemoryPut ut (singlePutRequest sid k v w) now s = .error e →
      e.isConflict = true) ∧
    (∀ s2, inMemoryPut ut (singlePutRequest sid k v w) now s = .ok s2 →
      ∃ r2, storeGet s2 (build_storage_key ut sid k) = some r2 ∧
        r2.version = satAdd1 w ∧ r2.value = v) ∧
    ((pgPut ut (singlePutRequest sid k v w) now t).isOk = true ↔
      ∃ row, pgFind t ut sid k = some row ∧ row.version = w) ∧
    (∀ e, pgPut ut (singlePutRequest sid k v w) now t = .error e → e.isConflict = true) ∧
    (∀ t2, pgPut ut (singlePutRequest sid k v w) now t = .ok t2 →
      ∃ row2, pgFind t2 ut sid k = some row2 ∧ row2.version = satAdd1 w ∧
        row2.value = v) := by
  have hne1 : ¬ w = -1 := by omega
  have hne0 : ¬ w = 0 := by omega
  have hwkv : (0:Int) < ({ key := k, value := v, version := w } : KeyValue).version := hw
  refine ⟨?_, ?_, ?_, ?_, ?_, ?_⟩
  · rw [inMemoryPut_single]
    cases hval : validate_put_operation s ut sid { key := k, value := v, version := w } with
    | error e =>
      constructor
      · intro hc
        exact absurd hc (by simp [Except.isOk, Except.toBool])
      · intro ⟨r, hr, hv⟩
        have hok : validate_put_operation s ut sid { key := k, value := v, version := w } =
            .ok () := (validate_put_pos_ok_iff hwkv).mpr ⟨r, hr, hv⟩
        rw [hval] at hok
        exact absurd hok (by simp)
    | ok u =>
      cases u
      constructor
      · intro _
        exact (validate_put_pos_ok_iff hwkv).mp hval
      · intro _
        rfl
  · intro e he
    rw [inMemoryPut_single] at he
    cases hval : validate_put_operation s ut sid { key := k, value := v, version := w } with
    | error e2 =>
      rw [hval] at he
      simp only at he
      injection he with he
      rw [← he]
      exact validate_put_pos_err_conflict hwkv hval
    | ok u =>
      cases u
      rw [hval] at he
      exact absurd he (by simp)
  · intro s2 hs2
    rw [inMemoryPut_single] at hs2
    cases hval : validate_put_operation s ut sid { key := k, value := v, version := w } with
    | error e2 =>
      rw [hval] at hs2
      exact absurd hs2 (by simp)
    | ok u =>
      cases u
      rw [hval] at hs2
      simp only at hs2
      injection hs2 with hs2
      obtain ⟨r, hr, hv⟩ := (validate_put_pos_ok_iff hwkv).mp hval
      rw [← hs2]
      unfold execute_put_object
      simp only [hr]
      rw [storeGet_insert]
      rw [if_pos rfl]
      refine ⟨_, rfl, ?_, rfl⟩
      simp only [if_neg hne1]
      rw [hv]
  · rw [pgPut_single_pos ut sid k v w now t hne1 hne0]
    by_cases hz : (t.filter (pgCondUpdateHit ut sid k w)).length = 0
    · rw [if_pos hz]
      constructor
      · intro hc
        exact absurd hc (by simp [Except.isOk, Except.toBool])
      · intro ⟨row, hrow, hv⟩
        rw [List.length_eq_zero, List.filter_eq_nil_iff] at hz
        refine absurd ?_ (hz row (pgFind_spec hrow).1)
        rw [pgCondUpdateHit, Bool.and_eq_true]
        exact ⟨(pgFind_spec hrow).2, by simp [hv]⟩
    · rw [if_neg hz]
      constructor
      · intro _
        have hne : t.filter (pgCondUpdateHit ut sid k w) ≠ [] := by
          intro hc
          rw [hc] at hz
          exact hz rfl
        obtain ⟨r, hrmem⟩ := List.exists_mem_of_ne_nil _ hne
        rw [List.mem_filter] at hrmem
        exact ⟨r, pgFind_of_mem_hit hwf hrmem.1 hrmem.2⟩
      · intro _
        rfl
  · intro e he
    rw [pgPut_single_pos ut sid k v w now t hne1 hne0] at he
    by_cases hz : (t.filter (pgCondUpdateHit ut sid k w)).length = 0
    · rw [if_pos hz] at he
      injection he with he
      rw [← he]
      rfl
    · rw [if_neg hz] at he
      exact absurd he (by simp)
  · intro t2 ht2
    rw [pgPut_single_pos ut sid k v w now t hne1 hne0] at ht2
    by_cases hz : (t.filter (pgCondUpdateHit ut sid k w)).length = 0
    · rw [if_pos hz] at ht2
      exact absurd ht2 (by simp)
    · rw [if_neg hz] at ht2
      injection ht2 with ht2
      have hne : t.filter (pgCondUpdateHit ut sid k w) ≠ [] := by
        intro hc
        rw [hc] at hz
        exact hz rfl
      obtain ⟨r, hrmem⟩ := List.exists_mem_of_ne_nil _ hne
      rw [List.mem_filter] at hrmem
      obtain ⟨hrow, hrv⟩ := pgFind_of_mem_hit hwf hrmem.1 hrmem.2
      rw [← ht2]
      rw [pgFind_map_preserve]
      · rw [hrow]
        have hfr : (if pgCondUpdateHit ut sid k w r then
            { r with value := v, version := satAdd1 w, last_updated_at := now } else r) =
            { r with value := v, version := satAdd1 w, last_updated_at := now } :=
          if_pos hrmem.2
        exact ⟨{ r with value := v, version := satAdd1 w, last_updated_at := now },
          congrArg some hfr, rfl, rfl⟩
      · intro r0
        by_cases hh : pgCondUpdateHit ut sid k w r0 = true
        · rw [if_pos hh]
          exact ⟨rfl, rfl, rfl⟩
        · rw [if_neg hh]
          exact ⟨rfl, rfl, rfl⟩

/-- Witness for C2: a conditional update at the stored version succeeds on
both backends. -/
theorem c2_conditional_update_semantics_witness :
    (inMemoryPut "u" (singlePutRequest "s" "a" [7] 1) 0 demoStore).isOk = true ∧
    (pgPut "u" (singlePutRequest "s" "a" [7] 1) 0 demoTable).isOk = true := by
  constructor
  · exact (c2_conditional_update_semantics "u" "s" "a" [7] 1 0 demoStore demoTable
      (by decide) (by decide)).1.mpr ⟨demoRecA, by decide, by decide⟩
  · exact (c2_conditional_update_semantics "u" "s" "a" [7] 1 0 demoStore demoTable
      (by decide) (by decide)).2.2.2.1.mpr ⟨demoRecA, by decide, by decide⟩

/-- A record stored at the i64 maximum version. -/
def cxMaxRec : VssDbRecord :=
  { user_token := "u", store_id := "s", key := "a", value := [],
    version := 9223372036854775807, created_at := 0, last_updated_at := 0 }

/-- One-record store at the i64 maximum version. -/
def cxMaxStore : Store := [("u#s#a", cxMaxRec)]

/-- The record after the saturating update: the version is still the i64
maximum. -/
def cxMaxRecAfter : VssDbRecord :=
  { user_token := "u", store_id := "s", key := "a", value := [],
    version := 9223372036854775807, created_at := 0, last_updated_at := 5 }

/-- Counterexample to C2 as stated: with the record stored at
v = 2^63 - 1 (the i64 maximum) a Put at w = v succeeds, but the stored
version saturates at 2^63 - 1 instead of becoming v + 1. -/
theorem c2_conditional_update_semantics_counterexample :
    inMemoryPut "u" (singlePutRequest "s" "a" [] 9223372036854775807) 5 cxMaxStore =
      .ok [("u#s#a", cxMaxRecAfter)] ∧
    (9223372036854775807 : Int) + 1 ≠ 9223372036854775807 := by
  constructor
  · decide
  · decide

theorem build_storage_key_inj_key {ut sid a b : String}
    (h : build_storage_key ut sid a = build_storage_key ut sid b) : a = b := by
  rw [build_storage_key_eq, build_storage_key_eq] at h
  apply string_ext
  have hd : (namespaceKey ut sid).data ++ a.data = (namespaceKey ut sid).data ++ b.data := by
    rw [← String.data_append, ← String.data_append, h]
  exact List.append_cancel_left hd

theorem execute_put_object_get_other {s : Store} {ut sid : String} {kv : KeyValue}
    {now : Nat} {k2 : String} (hne : build_storage_key ut sid kv.key ≠ k2) :
    storeGet (execute_put_object s ut sid kv now) k2 = storeGet s k2 := by
  unfold execute_put_object
  cases hget : storeGet s (build_storage_key ut sid kv.key) with
  | some existing =>
    simp only [hget]
    rw [storeGet_insert, if_neg (fun hc => hne hc.symm)]
  | none =>
    simp only [hget]
    rw [storeGet_insert, if_neg (fun hc => hne hc.symm)]

theorem storeGet_remove_other {s : Store} {k k2 : String} (hne : ¬ k2 = k) :
    storeGet (storeRemove s k) k2 = storeGet s k2 := by
  induction s with
  | nil => rfl
  | cons e rest ih =>
    obtain ⟨k0, r0⟩ := e
    by_cases h : k = k0
    · have h2 : ¬ k2 = k0 := by
        rw [← h]
        exact hne
      simp [storeRemove, storeGet, h, h2]
    · by_cases h2 : k2 = k0 <;> simp [storeRemove, storeGet, h, h2, ih]

theorem execute_delete_object_get_other {s : Store} {ut sid : String} {kv : KeyValue}
    {k2 : String} (hne : build_storage_key ut sid kv.key ≠ k2) :
    storeGet (execute_delete_object s ut sid kv) k2 = storeGet s k2 := by
  unfold execute_delete_object
  exact storeGet_remove_other (fun hc => hne hc.symm)

theorem foldl_execute_put_get_other {items : List KeyValue} {s : Store} {ut sid : String}
    {now : Nat} {k2 : String}
    (h : ∀ kv ∈ items, build_storage_key ut sid kv.key ≠ k2) :
    storeGet (items.foldl (fun acc kv => execute_put_object acc ut sid kv now) s) k2 =
      storeGet s k2 := by
  induction items generalizing s with
  | nil => rfl
  | cons kv rest ih =>
    rw [List.foldl_cons]
    rw [ih (fun kv2 h2 => h kv2 (by simp [h2]))]
    exact execute_put_object_get_other (h kv (by simp))

theorem foldl_execute_delete_get_other {items : List KeyValue} {s : Store} {ut sid : String}
    {k2 : String}
    (h : ∀ kv ∈ items, build_storage_key ut sid kv.key ≠ k2) :
    storeGet (items.foldl (fun acc kv => execute_delete_object acc ut sid kv) s) k2 =
      storeGet s k2 := by
  induction items generalizing s with
  | nil => rfl
  | cons kv rest ih =>
    rw [List.foldl_cons]
    rw [ih (fun kv2 h2 => h kv2 (by simp [h2]))]
    exact execute_delete_object_get_other (h kv (by simp))

theorem pgPut_global_only (ut sid : String) (g : Int) (now : Nat) (t : PgTable) :
    pgPut ut
      { store_id := sid, global_version := some g,
        transaction_items := [], delete_items := [] } now t =
      pgPut ut (singlePutRequest sid GLOBAL_VERSION_KEY [] g) now t := by
  unfold pgPut singlePutRequest
  simp [pgExecAll, MAX_PUT_REQUEST_ITEM_COUNT, globalKeyValue]

theorem pgPut_single_zero (ut sid k : String) (v : List Nat) (now : Nat) (t : PgTable) :
    pgPut ut (singlePutRequest sid k v 0) now t =
      if (t.find? (pgRowMatches ut sid k)).isSome then
        .error (.ConflictError "Transaction could not be completed due to a possible conflict")
      else
        .ok (t ++
          [build_vss_record ut sid { key := k, value := v, version := INITIAL_RECORD_VERSION }
            now]) := by
  rw [pgPut_single]
  unfold pgExecutePutObjectQuery
  rw [if_neg (show ¬ (build_vss_record ut sid
    { key := k, value := v, version := 0 } now).version = -1 from by
      simp [build_vss_record])]
  rw [if_pos (show (build_vss_record ut sid
    { key := k, value := v, version := 0 } now).version = 0 from rfl)]
  unfold pgConditionalInsert
  simp only [build_vss_record]
  by_cases hf : (t.find? (pgRowMatches ut sid k)).isSome
  · simp [hf]
  · simp [hf, build_vss_record, INITIAL_RECORD_VERSION]

theorem exec_global_version (sD : Store) (ut sid : String) (g : Int) (now : Nat) :
    get_current_global_version
      (execute_put_object sD ut sid (globalKeyValue g) now) ut sid =
      (match storeGet sD (build_storage_key ut sid GLOBAL_VERSION_KEY) with
       | some existing => if g = -1 then INITIAL_RECORD_VERSION else satAdd1 existing.version
       | none => INITIAL_RECORD_VERSION) := by
  unfold get_current_global_version execute_put_object
  cases hget : storeGet sD (build_storage_key ut sid GLOBAL_VERSION_KEY) with
  | some existing =>
    simp only [globalKeyValue] at hget ⊢
    simp only [hget]
    rw [storeGet_insert, if_pos rfl]
  | none =>
    simp only [globalKeyValue] at hget ⊢
    simp only [hget]
    rw [storeGet_insert, if_pos rfl]

theorem find?_filter_not_hit {t : PgTable} {p hit : VssDbRecord → Bool}
    (h : ∀ r, hit r = true → p r = false) :
    (t.filter (fun r => ! hit r)).find? p = t.find? p := by
  induction t with
  | nil => rfl
  | cons x xs ih =>
    rw [List.filter_cons]
    by_cases hx : hit x = true
    · rw [if_neg (by rw [hx]; simp)]
      rw [List.find?_cons_of_neg _ (by rw [h x hx]; simp)]
      exact ih
    · rw [if_pos (by rw [Bool.not_eq_true] at hx; rw [hx]; rfl)]
      by_cases hpx : p x = true
      · rw [List.find?_cons_of_pos _ hpx, List.find?_cons_of_pos _ hpx]
      · rw [List.find?_cons_of_neg _ hpx, List.find?_cons_of_neg _ hpx]
        exact ih

theorem pgExecDelete_find_other {t : PgTable} {vrec : VssDbRecord} {ut2 sid2 k2 : String}
    (hne : ¬ (vrec.user_token = ut2 ∧ vrec.store_id = sid2 ∧ vrec.key = k2)) :
    pgFind (pgExecuteDeleteObjectQuery t vrec).1 ut2 sid2 k2 = pgFind t ut2 sid2 k2 := by
  have hnew : ∀ r : VssDbRecord,
      pgRowMatches vrec.user_token vrec.store_id vrec.key r = true →
      pgRowMatches ut2 sid2 k2 r = false := by
    intro r hr
    by_contra hc
    rw [Bool.not_eq_false] at hc
    obtain ⟨h1, h2, h3⟩ := pgRowMatches_iff.mp hc
    obtain ⟨g1, g2, g3⟩ := pgRowMatches_iff.mp hr
    exact hne ⟨g1 ▸ h1, g2 ▸ h2, g3 ▸ h3⟩
  unfold pgExecuteDeleteObjectQuery
  by_cases hv : vrec.version = -1
  · rw [if_pos hv]
    unfold pgNonConditionalDelete pgFind
    exact find?_filter_not_hit (fun r hr => hnew r hr)
  · rw [if_neg hv]
    unfold pgConditionalDelete pgFind
    refine find?_filter_not_hit (fun r hr => hnew r ?_)
    rw [Bool.and_eq_true] at hr
    exact hr.1

theorem pgExecAllDelete_find_other {recs : List VssDbRecord} {t : PgTable}
    {ut2 sid2 k2 : String}
    (h : ∀ r ∈ recs, ¬ (r.user_token = ut2 ∧ r.store_id = sid2 ∧ r.key = k2)) :
    pgFind (pgExecAll pgExecuteDeleteObjectQuery t recs).1 ut2 sid2 k2 =
      pgFind t ut2 sid2 k2 := by
  induction recs generalizing t with
  | nil => rfl
  | cons r rest ih =>
    rw [show (pgExecAll pgExecuteDeleteObjectQuery t (r :: rest)).1 =
      (pgExecAll pgExecuteDeleteObjectQuery (pgExecuteDeleteObjectQuery t r).1 rest).1 from rfl]
    rw [ih (fun r2 h2 => h r2 (List.mem_cons_of_mem _ h2))]
    exact pgExecDelete_find_other (h r (List.mem_cons_self _ _))

theorem pgWF_map_pk {t : PgTable} (hwf : t.WF) (f : VssDbRecord → VssDbRecord)
    (hf : ∀ r, (f r).user_token = r.user_token ∧ (f r).store_id = r.store_id ∧
      (f r).key = r.key) : PgTable.WF (t.map f) := by
  unfold PgTable.WF at *
  rw [List.pairwise_map]
  refine List.Pairwise.imp ?_ hwf
  intro a b hab hc
  obtain ⟨h1, h2, h3⟩ := hc
  rw [(hf a).1, (hf b).1] at h1
  rw [(hf a).2.1, (hf b).2.1] at h2
  rw [(hf a).2.2, (hf b).2.2] at h3
  exact hab ⟨h1, h2, h3⟩

theorem pgWF_append_new {t : PgTable} (hwf : t.WF) {x : VssDbRecord}
    (hx : ∀ r ∈ t, ¬ (r.user_token = x.user_token ∧ r.store_id = x.store_id ∧
      r.key = x.key)) : PgTable.WF (t ++ [x]) := by
  unfold PgTable.WF at *
  rw [List.pairwise_append]
  refine ⟨hwf, List.pairwise_singleton _ _, ?_⟩
  intro a ha b hb
  rw [List.mem_singleton] at hb
  subst hb
  exact hx a ha

theorem pgExecPutQuery_WF {t : PgTable} (hwf : t.WF) (vrec : VssDbRecord) :
    PgTable.WF (pgExecutePutObjectQuery t vrec).1 := by
  have hpk : ∀ (vl : List Nat) (lu : Nat) (r : VssDbRecord),
      ((if pgRowMatches vrec.user_token vrec.store_id vrec.key r then
        { r with value := vl, version := INITIAL_RECORD_VERSION, last_updated_at := lu }
      else r) : VssDbRecord).user_token = r.user_token ∧
      ((if pgRowMatches vrec.user_token vrec.store_id vrec.key r then
        { r with value := vl, version := INITIAL_RECORD_VERSION, last_updated_at := lu }
      else r) : VssDbRecord).store_id = r.store_id ∧
      ((if pgRowMatches vrec.user_token vrec.store_id vrec.key r then
        { r with value := vl, version := INITIAL_RECORD_VERSION, last_updated_at := lu }
      else r) : VssDbRecord).key = r.key := by
    intro vl lu r
    by_cases hh : pgRowMatches vrec.user_token vrec.store_id vrec.key r = true
    · rw [if_pos hh]
      exact ⟨rfl, rfl, rfl⟩
    · rw [if_neg hh]
      exact ⟨rfl, rfl, rfl⟩
  have happ : ¬ (t.find? (pgRowMatches vrec.user_token vrec.store_id vrec.key)).isSome →
      ∀ (w : Int), PgTable.WF (t ++ [{ vrec with version := w }]) := by
    intro hf w
    have hnone : t.find? (pgRowMatches vrec.user_token vrec.store_id vrec.key) = none :=
      Option.not_isSome_iff_eq_none.mp hf
    refine pgWF_append_new hwf ?_
    intro r hr hc
    have hno := List.find?_eq_none.mp hnone r hr
    exact hno (pgRowMatches_iff.mpr ⟨hc.1, hc.2.1, hc.2.2⟩)
  unfold pgExecutePutObjectQuery
  by_cases hv1 : vrec.version = -1
  · rw [if_pos hv1]
    unfold pgNonConditionalUpsert
    by_cases hf : (t.find? (pgRowMatches vrec.user_token vrec.store_id vrec.key)).isSome
    · simp only [hf, if_pos]
      exact pgWF_map_pk hwf _ (hpk vrec.value vrec.last_updated_at)
    · simp only [hf, if_neg]
      exact happ hf INITIAL_RECORD_VERSION
  · rw [if_neg hv1]
    by_cases hv0 : vrec.version = 0
    · rw [if_pos hv0]
      unfold pgConditionalInsert
      by_cases hf : (t.find? (pgRowMatches vrec.user_token vrec.store_id vrec.key)).isSome
      · simp only [hf, if_pos]
        exact hwf
      · simp only [hf, if_neg]
        exact happ hf INITIAL_RECORD_VERSION
    · rw [if_neg hv0]
      unfold pgConditionalUpdate
      refine pgWF_map_pk hwf _ ?_
      intro r
      by_cases hh : (pgRowMatches vrec.user_token vrec.store_id vrec.key r &&
          r.version == vrec.version) = true
      · rw [if_pos hh]
        exact ⟨rfl, rfl, rfl⟩
      · rw [if_neg hh]
        exact ⟨rfl, rfl, rfl⟩

theorem pgExecAllPut_WF {recs : List VssDbRecord} {t : PgTable} (hwf : t.WF) :
    PgTable.WF (pgExecAll pgExecutePutObjectQuery t recs).1 := by
  induction recs generalizing t with
  | nil => exact hwf
  | cons r rest ih =>
    exact ih (pgExecPutQuery_WF hwf r)

theorem pgExecAll_append (f : PgTable → VssDbRecord → PgTable × Nat) (t : PgTable)
    (l1 l2 : List VssDbRecord) :
    pgExecAll f t (l1 ++ l2) =
      ((pgExecAll f (pgExecAll f t l1).1 l2).1,
       (pgExecAll f t l1).2 ++ (pgExecAll f (pgExecAll f t l1).1 l2).2) := by
  induction l1 generalizing t with
  | nil => rfl
  | cons r rest ih =>
    simp [pgExecAll, ih]

/-- The pure sentinel bump: a successful Put of global_version = g alone,
over a PK-unique table, leaves the sentinel row at g + 1 when 0 ≤ g
< i64::MAX. -/
theorem pg_global_bump {t t2 : PgTable} (hwf : t.WF) (ut sid : String) {g : Int}
    (now : Nat) (h0 : 0 ≤ g) (hmax : g < i64max)
    (hpg : pgPut ut
      { store_id := sid, global_version := some g,
        transaction_items := [], delete_items := [] } now t = .ok t2) :
    ∃ row, pgFind t2 ut sid GLOBAL_VERSION_KEY = some row ∧ row.version = g + 1 := by
  have hsat : satAdd1 g = g + 1 := by
    unfold satAdd1 i64max at *
    omega
  have hne1 : ¬ g = -1 := by omega
  rw [pgPut_global_only] at hpg
  by_cases hg0 : g = 0
  · subst hg0
    rw [pgPut_single_zero] at hpg
    by_cases hf : (t.find? (pgRowMatches ut sid GLOBAL_VERSION_KEY)).isSome
    · rw [if_pos hf] at hpg
      exact absurd hpg (by simp)
    · rw [if_neg hf] at hpg
      injection hpg with hpg
      rw [← hpg]
      unfold pgFind
      rw [List.find?_append]
      have hfn : List.find? (pgRowMatches ut sid GLOBAL_VERSION_KEY) t =
          none := Option.not_isSome_iff_eq_none.mp hf
      rw [hfn]
      rw [Option.none_or]
      rw [List.find?_cons_of_pos _ (by simp [pgRowMatches, build_vss_record])]
      refine ⟨_, rfl, ?_⟩
      norm_num [build_vss_record, INITIAL_RECORD_VERSION]
  · rw [pgPut_single_pos ut sid GLOBAL_VERSION_KEY [] g now t hne1 hg0] at hpg
    by_cases hz : (t.filter
        (pgCondUpdateHit ut sid GLOBAL_VERSION_KEY g)).length = 0
    · rw [if_pos hz] at hpg
      exact absurd hpg (by simp)
    · rw [if_neg hz] at hpg
      injection hpg with hpg
      have hne : t.filter (pgCondUpdateHit ut sid GLOBAL_VERSION_KEY g) ≠ [] := by
        intro hc
        rw [hc] at hz
        exact hz rfl
      obtain ⟨r, hrmem⟩ := List.exists_mem_of_ne_nil _ hne
      rw [List.mem_filter] at hrmem
      obtain ⟨hrow, hrv⟩ := pgFind_of_mem_hit hwf hrmem.1 hrmem.2
      rw [← hpg]
      rw [pgFind_map_preserve]
      · rw [hrow]
        have hfr : (if pgCondUpdateHit ut sid GLOBAL_VERSION_KEY g r then
            { r with value := [], version := satAdd1 g, last_updated_at := now } else r) =
            { r with value := [], version := satAdd1 g, last_updated_at := now } :=
          if_pos hrmem.2
        refine ⟨{ r with value := [], version := satAdd1 g, last_updated_at := now },
          congrArg some hfr, ?_⟩
        simp only
        exact hsat
      · intro r0
        by_cases hh : pgCondUpdateHit ut sid GLOBAL_VERSION_KEY g r0 = true
        · rw [if_pos hh]
          exact ⟨rfl, rfl, rfl⟩
        · rw [if_neg hh]
          exact ⟨rfl, rfl, rfl⟩

/-- Claim C4 (amended): a successful Put carrying global_version = g with
0 ≤ g < 2^63 - 1, whose items do not themselves name the sentinel key,
leaves the sentinel at exactly g + 1 on both backends.  The claim as stated
fails for g = -1: the non-conditional write resets the sentinel to 1, not
to g + 1 = 0; it also fails at g = i64::MAX, where the version saturates. -/
theorem c4_global_version_advance (ut : String) (request : PutObjectRequest) (now : Nat)
    (s s2 : Store) (t t2 : PgTable) (g : Int)
    (hgv : request.global_version = some g) (h0 : 0 ≤ g) (hmax : g < i64max)
    (hkeys : ∀ kv ∈ request.transaction_items, kv.key ≠ GLOBAL_VERSION_KEY)
    (hdkeys : ∀ kv ∈ request.delete_items, kv.key ≠ GLOBAL_VERSION_KEY)
    (hok : inMemoryPut ut request now s = .ok s2)
    (hwf : PgTable.WF t)
    (hpg : pgPut ut request now t = .ok t2) :
    get_current_global_version s2 ut request.store_id = g + 1 ∧
    (∃ row, pgFind t2 ut request.store_id GLOBAL_VERSION_KEY = some row ∧
      row.version = g + 1) := by
  have hsat : satAdd1 g = g + 1 := by
    unfold satAdd1 i64max at *
    omega
  have hne1 : ¬ g = -1 := by omega
  constructor
  · unfold inMemoryPut at hok
    by_cases hcount : request.transaction_items.length + request.delete_items.length >
        MAX_PUT_REQUEST_ITEM_COUNT
    · rw [if_pos hcount] at hok
      exact absurd hok (by simp)
    · rw [if_neg hcount] at hok
      rw [hgv] at hok
      simp only at hok
      cases hval : validate_put_operation s ut request.store_id (globalKeyValue g) with
      | error e =>
        rw [hval] at hok
        exact absurd hok (by simp)
      | ok u =>
        cases u
        rw [hval] at hok
        simp only at hok
        cases hv1 : validateAll (validate_put_operation s ut request.store_id)
            request.transaction_items with
        | error e =>
          rw [hv1] at hok
          exact absurd hok (by simp)
        | ok u =>
          cases u
          rw [hv1] at hok
          simp only at hok
          cases hv2 : validateAll (validate_delete_operation s ut request.store_id)
              request.delete_items with
          | error e =>
            rw [hv2] at hok
            exact absurd hok (by simp)
          | ok u =>
            cases u
            rw [hv2] at hok
            simp only at hok
            injection hok with hok
            have hgk : ∀ kv ∈ request.transaction_items,
                build_storage_key ut request.store_id kv.key ≠
                  build_storage_key ut request.store_id GLOBAL_VERSION_KEY := by
              intro kv hkv hc
              exact hkeys kv hkv (build_storage_key_inj_key hc)
            have hgk2 : ∀ kv ∈ request.delete_items,
                build_storage_key ut request.store_id kv.key ≠
                  build_storage_key ut request.store_id GLOBAL_VERSION_KEY := by
              intro kv hkv hc
              exact hdkeys kv hkv (build_storage_key_inj_key hc)
            have hpres : storeGet (request.delete_items.foldl
                  (fun acc kv => execute_delete_object acc ut request.store_id kv)
                  (request.transaction_items.foldl
                    (fun acc kv => execute_put_object acc ut request.store_id kv now) s))
                (build_storage_key ut request.store_id GLOBAL_VERSION_KEY) =
                storeGet s (build_storage_key ut request.store_id GLOBAL_VERSION_KEY) := by
              rw [foldl_execute_delete_get_other hgk2]
              rw [foldl_execute_put_get_other hgk]
            rw [← hok]
            rw [exec_global_version]
            rw [hpres]
            unfold validate_put_operation at hval
            simp only [globalKeyValue] at hval
            rw [if_neg hne1] at hval
            by_cases hg0 : g = 0
            · rw [if_pos hg0] at hval
              cases hget : storeGet s
                  (build_storage_key ut request.store_id GLOBAL_VERSION_KEY) with
              | some r =>
                simp only [hget] at hval
                simp at hval
              | none =>
                simp only [hget]
                simp only [INITIAL_RECORD_VERSION]
                omega
            · rw [if_neg hg0] at hval
              cases hget : storeGet s
                  (build_storage_key ut request.store_id GLOBAL_VERSION_KEY) with
              | some r =>
                simp only [hget] at hval
                by_cases hveq : r.version = g
                · simp only [hget]
                  simp only [if_neg hne1]
                  rw [hveq, hsat]
                · rw [if_neg hveq] at hval
                  exact absurd hval (by simp)
              | none =>
                simp only [hget] at hval
                exact absurd hval (by simp)
  · unfold pgPut at hpg
    by_cases hcount : request.transaction_items.length + request.delete_items.length >
        MAX_PUT_REQUEST_ITEM_COUNT
    · rw [if_pos hcount] at hpg
      exact absurd hpg (by simp)
    · rw [if_neg hcount] at hpg
      rw [hgv] at hpg
      simp only at hpg
      rw [pgExecAll_append] at hpg
      simp only [pgExecAll] at hpg
      by_cases hany : (((pgExecAll pgExecutePutObjectQuery t
            (request.transaction_items.map (fun kv =>
              build_vss_record ut request.store_id kv now))).2 ++
          [(pgExecutePutObjectQuery (pgExecAll pgExecutePutObjectQuery t
            (request.transaction_items.map (fun kv =>
              build_vss_record ut request.store_id kv now))).1
            (build_vss_record ut request.store_id (globalKeyValue g) now)).2]) ++
          (pgExecAll pgExecuteDeleteObjectQuery
            (pgExecutePutObjectQuery (pgExecAll pgExecutePutObjectQuery t
              (request.transaction_items.map (fun kv =>
                build_vss_record ut request.store_id kv now))).1
              (build_vss_record ut request.store_id (globalKeyValue g) now)).1
            (request.delete_items.map (fun kv =>
              build_vss_record ut request.store_id kv now))).2).any
          (fun n => n == 0) = true
      · rw [if_pos hany] at hpg
        exact absurd hpg (by simp)
      · rw [if_neg hany] at hpg
        injection hpg with hpg
        have hgz : ¬ (pgExecutePutObjectQuery (pgExecAll pgExecutePutObjectQuery t
            (request.transaction_items.map (fun kv =>
              build_vss_record ut request.store_id kv now))).1
            (build_vss_record ut request.store_id (globalKeyValue g) now)).2 = 0 := by
          intro hc
          exact hany (by simp [List.any_append, hc])
        have hwfm : (pgExecAll pgExecutePutObjectQuery t
            (request.transaction_items.map (fun kv =>
              build_vss_record ut request.store_id kv now))).1.WF :=
          pgExecAllPut_WF hwf
        have hpure : pgPut ut
            { store_id := request.store_id, global_version := some g,
              transaction_items := [], delete_items := [] } now
            (pgExecAll pgExecutePutObjectQuery t
              (request.transaction_items.map (fun kv =>
                build_vss_record ut request.store_id kv now))).1 =
            .ok (pgExecutePutObjectQuery (pgExecAll pgExecutePutObjectQuery t
              (request.transaction_items.map (fun kv =>
                build_vss_record ut request.store_id kv now))).1
              (build_vss_record ut request.store_id (globalKeyValue g) now)).1 := by
          simp [pgPut, pgExecAll, MAX_PUT_REQUEST_ITEM_COUNT, hgz]
        obtain ⟨row, hrow, hv⟩ := pg_global_bump hwfm ut request.store_id now h0 hmax hpure
        have hdel : pgFind (pgExecAll pgExecuteDeleteObjectQuery
            (pgExecutePutObjectQuery (pgExecAll pgExecutePutObjectQuery t
              (request.transaction_items.map (fun kv =>
                build_vss_record ut request.store_id kv now))).1
              (build_vss_record ut request.store_id (globalKeyValue g) now)).1
            (request.delete_items.map (fun kv =>
              build_vss_record ut request.store_id kv now))).1
            ut request.store_id GLOBAL_VERSION_KEY =
            pgFind (pgExecutePutObjectQuery (pgExecAll pgExecutePutObjectQuery t
              (request.transaction_items.map (fun kv =>
                build_vss_record ut request.store_id kv now))).1
              (build_vss_record ut request.store_id (globalKeyValue g) now)).1
            ut request.store_id GLOBAL_VERSION_KEY := by
          refine pgExecAllDelete_find_other ?_
          intro r hr hc
          rw [List.mem_map] at hr
          obtain ⟨kv, hkv, hbuild⟩ := hr
          apply hdkeys kv hkv
          rw [← hbuild] at hc
          exact hc.2.2
        rw [← hpg]
        rw [hdel]
        exact ⟨row, hrow, hv⟩

/-- Request bumping only the sentinel from 3. -/
def demoGlobalReq : PutObjectRequest :=
  { store_id := "s", global_version := some 3, transaction_items := [],
    delete_items := [] }

/-- The sentinel record after a successful bump from 3. -/
def demoRecG4 : VssDbRecord :=
  { user_token := "u", store_id := "s", key := "global_version", value := [],
    version := 4, created_at := 0, last_updated_at := 0 }

/-- The demo store after the sentinel bump. -/
def demoStoreG4 : Store := [("u#s#a", demoRecA), ("u#s#global_version", demoRecG4)]

/-- The demo table after the sentinel bump. -/
def demoTableG4 : PgTable := [demoRecA, demoRecG4]

/-- Witness for C4: bumping the sentinel from version 3 with g = 3 leaves it
at 4 on both backends. -/
theorem c4_global_version_advance_witness :
    get_current_global_version demoStoreG4 "u" "s" = 3 + 1 ∧
    (∃ row, pgFind demoTableG4 "u" "s" GLOBAL_VERSION_KEY = some row ∧
      row.version = 3 + 1) :=
  c4_global_version_advance "u" demoGlobalReq 0 demoStore demoStoreG4 demoTable
    demoTableG4 3 (by decide) (by decide) (by decide) (by decide) (by decide)
    (by decide) (by decide) (by decide)

/-- Request carrying the non-conditional global_version = -1. -/
def cxGlobalReq : PutObjectRequest :=
  { store_id := "s", global_version := some (-1), transaction_items := [],
    delete_items := [] }

/-- Counterexample to C4 as stated: a Put with global_version = -1 (which
the request-plane accepts) succeeds on the empty store and leaves the
sentinel at version 1, not at g + 1 = 0. -/
theorem c4_global_version_advance_counterexample :
    (inMemoryPut "u" cxGlobalReq 0 []).isOk = true ∧
    get_current_global_version (inMemoryPutState "u" cxGlobalReq 0 []) "u" "s" = 1 ∧
    ((-1 : Int) + 1 ≠ 1) := by
  refine ⟨by decide, by decide, by decide⟩

/-- A Put request writing the same key twice, both non-conditional. -/
def dupPutRequest (sid k : String) (v1 v2 : List Nat) : PutObjectRequest :=
  { store_id := sid, global_version := none,
    transaction_items := [{ key := k, value := v1, version := -1 },
      { key := k, value := v2, version := -1 }],
    delete_items := [] }

/-- The single record left by the duplicate request. -/
def dupResultRec (ut sid k : String) (v2 : List Nat) (now : Nat) : VssDbRecord :=
  { user_token := ut, store_id := sid, key := k, value := v2,
    version := INITIAL_RECORD_VERSION, created_at := now, last_updated_at := now }

theorem pgNonConditionalUpsert_snd (t : PgTable) (r : VssDbRecord) :
    (pgNonConditionalUpsert t r).2 = 1 := by
  unfold pgNonConditionalUpsert
  by_cases h : (t.find? (pgRowMatches r.user_token r.store_id r.key)).isSome <;> simp [h]

theorem pgExecPutQuery_neg1_snd (tt : PgTable) (r : VssDbRecord) (h : r.version = -1) :
    (pgExecutePutObjectQuery tt r).2 = 1 := by
  unfold pgExecutePutObjectQuery
  rw [if_pos h]
  exact pgNonConditionalUpsert_snd tt r

theorem pgExecAll_neg1_counts (ut sid : String) (now : Nat) (items : List KeyValue)
    (hneg : ∀ kv ∈ items, kv.version = -1) :
    ∀ (t : PgTable) (c : Nat), c ∈ (pgExecAll pgExecutePutObjectQuery t
      (items.map (fun kv => build_vss_record ut sid kv now))).2 → c = 1 := by
  induction items with
  | nil =>
    intro t c hc
    simp [pgExecAll] at hc
  | cons kv rest ih =>
    intro t c hc
    simp only [List.map_cons, pgExecAll, List.mem_cons] at hc
    rcases hc with h | h
    · rw [h]
      exact pgExecPutQuery_neg1_snd _ _ (hneg kv (by simp))
    · exact ih (fun kv2 h2 => hneg kv2 (by simp [h2])) _ c h

theorem pgPut_ok_of_all_neg1 (ut : String) (request : PutObjectRequest) (now : Nat)
    (t : PgTable)
    (hcount : ¬ request.transaction_items.length + request.delete_items.length >
      MAX_PUT_REQUEST_ITEM_COUNT)
    (hgv : request.global_version = none)
    (hneg : ∀ kv ∈ request.transaction_items, kv.version = -1)
    (hdel : request.delete_items = []) :
    ∃ t2, pgPut ut request now t = .ok t2 := by
  unfold pgPut
  rw [if_neg hcount, hgv, hdel]
  simp only [List.map_nil, List.append_nil, List.nil_append]
  have hfalse : (pgExecAll pgExecutePutObjectQuery t
      (request.transaction_items.map
        (fun kv => build_vss_record ut request.store_id kv now))).2.any
      (fun n => n == 0) = false := by
    rw [List.any_eq_false]
    intro c hc
    have hc1 : c = 1 := pgExecAll_neg1_counts ut request.store_id now
      request.transaction_items hneg t c hc
    simp [hc1]
  apply Exists.intro
  simp only [pgExecAll, List.append_nil]
  rw [hfalse]
  rfl

/-- Claim C6 (amended): duplicate keys in one Put request are not rejected
and need not conflict.  A request with two non-conditional puts of the same
key succeeds against every store state in both backends; starting from the
empty store it leaves a single record at version 1 holding the second value
(the in-memory backend validates each item only against the pre-request
state; the Postgres backend only checks per-statement affected-row counts,
and a non-conditional upsert always affects one row). -/
theorem c6_duplicate_keys_not_rejected (ut sid k : String) (v1 v2 : List Nat) (now : Nat)
    (s : Store) (t : PgTable) :
    (∃ s2, inMemoryPut ut (dupPutRequest sid k v1 v2) now s = .ok s2) ∧
    inMemoryPut ut (dupPutRequest sid k v1 v2) now [] =
      .ok [(build_storage_key ut sid k, dupResultRec ut sid k v2 now)] ∧
    (∃ t2, pgPut ut (dupPutRequest sid k v1 v2) now t = .ok t2) ∧
    pgPut ut (dupPutRequest sid k v1 v2) now [] = .ok [dupResultRec ut sid k v2 now] := by
  refine ⟨?_, ?_, ?_, ?_⟩
  · refine ⟨execute_put_object (execute_put_object s ut sid
      { key := k, value := v1, version := -1 } now) ut sid
      { key := k, value := v2, version := -1 } now, ?_⟩
    simp [inMemoryPut, dupPutRequest, validateAll, validate_put_operation,
      MAX_PUT_REQUEST_ITEM_COUNT]
  · simp [inMemoryPut, dupPutRequest, validateAll, validate_put_operation,
      execute_put_object, storeGet, storeInsert, MAX_PUT_REQUEST_ITEM_COUNT,
      lt_self_iff_false, dupResultRec, INITIAL_RECORD_VERSION]
  · exact pgPut_ok_of_all_neg1 ut (dupPutRequest sid k v1 v2) now t
      (by norm_num [dupPutRequest, MAX_PUT_REQUEST_ITEM_COUNT]) rfl
      (by intro kv hkv
          simp only [dupPutRequest, List.mem_cons] at hkv
          rcases hkv with h | h | h
          · rw [h]
          · rw [h]
          · exact absurd h (List.not_mem_nil kv)) rfl
  · simp [pgPut, dupPutRequest, pgExecAll, pgExecutePutObjectQuery,
      pgNonConditionalUpsert, pgRowMatches, build_vss_record,
      MAX_PUT_REQUEST_ITEM_COUNT, dupResultRec, INITIAL_RECORD_VERSION]

/-- Counterexample to C6 as stated: a request with the same key twice
succeeds (no Conflict) on both backends. -/
theorem c6_duplicate_keys_counterexample :
    inMemoryPut "u" (dupPutRequest "s" "k" [1] [2]) 0 [] =
      .ok [("u#s#k", dupResultRec "u" "s" "k" [2] 0)] ∧
    pgPut "u" (dupPutRequest "s" "k" [1] [2]) 0 [] =
      .ok [dupResultRec "u" "s" "k" [2] 0] := by
  constructor
  · decide
  · decide

theorem takeWhile_hashfree (a rest : List Char) (ha : ¬ '#' ∈ a) :
    (a ++ '#' :: rest).takeWhile (fun c => c != '#') = a := by
  induction a with
  | nil => simp [List.takeWhile]
  | cons c cs ih =>
    have hc : (c != '#') = true := by
      simp only [bne_iff_ne, ne_eq]
      intro hcc
      exact ha (by simp [hcc])
    have ih2 := ih (fun hm => ha (by simp [hm]))
    simp [List.takeWhile_cons, hc, ih2]

theorem hashfree_seg_eq {a b rest1 rest2 : List Char}
    (ha : ¬ '#' ∈ a) (hb : ¬ '#' ∈ b)
    (h : a ++ '#' :: rest1 = b ++ '#' :: rest2) : a = b ∧ rest1 = rest2 := by
  have hab : a = b := by
    have h1 := takeWhile_hashfree a rest1 ha
    have h2 := takeWhile_hashfree b rest2 hb
    rw [← h1, ← h2, h]
  refine ⟨hab, ?_⟩
  rw [hab] at h
  have := List.append_cancel_left h
  injection this

theorem build_storage_key_data (ut sid k : String) :
    (build_storage_key ut sid k).data = ut.data ++ '#' :: (sid.data ++ '#' :: k.data) := by
  simp [build_storage_key, String.data_append]

theorem build_storage_key_inj {ut1 sid1 k1 ut2 sid2 k2 : String}
    (h1u : ¬ '#' ∈ ut1.data) (h1s : ¬ '#' ∈ sid1.data)
    (h2u : ¬ '#' ∈ ut2.data) (h2s : ¬ '#' ∈ sid2.data)
    (heq : build_storage_key ut1 sid1 k1 = build_storage_key ut2 sid2 k2) :
    ut1 = ut2 ∧ sid1 = sid2 ∧ k1 = k2 := by
  have hd : (build_storage_key ut1 sid1 k1).data = (build_storage_key ut2 sid2 k2).data := by
    rw [heq]
  rw [build_storage_key_data, build_storage_key_data] at hd
  obtain ⟨hu, hrest⟩ := hashfree_seg_eq h1u h2u hd
  obtain ⟨hs, hk⟩ := hashfree_seg_eq h1s h2s hrest
  exact ⟨string_ext hu, string_ext hs, string_ext hk⟩

theorem pgFind_map_id {t : PgTable} {ut2 sid2 k2 : String} (f : VssDbRecord → VssDbRecord)
    (hpk : ∀ r, (f r).user_token = r.user_token ∧ (f r).store_id = r.store_id ∧
      (f r).key = r.key)
    (hfix : ∀ r, pgRowMatches ut2 sid2 k2 r = true → f r = r) :
    pgFind (t.map f) ut2 sid2 k2 = pgFind t ut2 sid2 k2 := by
  rw [pgFind_map_preserve t ut2 sid2 k2 f hpk]
  cases h : pgFind t ut2 sid2 k2 with
  | none => rfl
  | some r => simp [hfix r (pgFind_spec h).2]

theorem pgFind_append_nomatch {t : PgTable} {x : VssDbRecord} {ut2 sid2 k2 : String}
    (hx : ¬ pgRowMatches ut2 sid2 k2 x = true) :
    pgFind (t ++ [x]) ut2 sid2 k2 = pgFind t ut2 sid2 k2 := by
  unfold pgFind
  rw [List.find?_append]
  rw [List.find?_cons_of_neg _ hx]
  rw [show List.find? (pgRowMatches ut2 sid2 k2) [] = none from rfl]
  rw [Option.or_none]

theorem pgExecPut_find_other {t : PgTable} {vrec : VssDbRecord} {ut2 sid2 k2 : String}
    (hne : ¬ (vrec.user_token = ut2 ∧ vrec.store_id = sid2 ∧ vrec.key = k2)) :
    pgFind (pgExecutePutObjectQuery t vrec).1 ut2 sid2 k2 = pgFind t ut2 sid2 k2 := by
  have hnew : ∀ (r : VssDbRecord), r.user_token = vrec.user_token →
      r.store_id = vrec.store_id → r.key = vrec.key →
      ¬ pgRowMatches ut2 sid2 k2 r = true := by
    intro r hu hs hk hc
    obtain ⟨h1, h2, h3⟩ := pgRowMatches_iff.mp hc
    exact hne ⟨hu ▸ h1, hs ▸ h2, hk ▸ h3⟩
  have hfix : ∀ g : VssDbRecord → VssDbRecord,
      (∀ r, pgRowMatches vrec.user_token vrec.store_id vrec.key r = true → True) → True :=
    fun _ _ => trivial
  unfold pgExecutePutObjectQuery
  by_cases hv1 : vrec.version = -1
  · rw [if_pos hv1]
    unfold pgNonConditionalUpsert
    by_cases hf : (t.find? (pgRowMatches vrec.user_token vrec.store_id vrec.key)).isSome
    · simp only [hf, if_pos]
      refine pgFind_map_id _ ?_ ?_
      · intro r
        by_cases hh : pgRowMatches vrec.user_token vrec.store_id vrec.key r = true
        · rw [if_pos hh]
          exact ⟨rfl, rfl, rfl⟩
        · rw [if_neg hh]
          exact ⟨rfl, rfl, rfl⟩
      · intro r hr
        have hrm : ¬ pgRowMatches vrec.user_token vrec.store_id vrec.key r = true := by
          intro hc
          obtain ⟨h1, h2, h3⟩ := pgRowMatches_iff.mp hc
          exact hnew r h1 h2 h3 hr
        rw [if_neg hrm]
    · simp only [hf, if_neg]
      refine pgFind_append_nomatch (hnew _ rfl rfl rfl)
  · rw [if_neg hv1]
    by_cases hv0 : vrec.version = 0
    · rw [if_pos hv0]
      unfold pgConditionalInsert
      by_cases hf : (t.find? (pgRowMatches vrec.user_token vrec.store_id vrec.key)).isSome
      · simp only [hf, if_pos]
      · simp only [hf, if_neg]
        refine pgFind_append_nomatch (hnew _ rfl rfl rfl)
    · rw [if_neg hv0]
      unfold pgConditionalUpdate
      refine pgFind_map_id _ ?_ ?_
      · intro r
        by_cases hh : (pgRowMatches vrec.user_token vrec.store_id vrec.key r &&
            r.version == vrec.version) = true
        · rw [if_pos hh]
          exact ⟨rfl, rfl, rfl⟩
        · rw [if_neg hh]
          exact ⟨rfl, rfl, rfl⟩
      · intro r hr
        have hrm : ¬ (pgRowMatches vrec.user_token vrec.store_id vrec.key r &&
            r.version == vrec.version) = true := by
          intro hc
          rw [Bool.and_eq_true] at hc
          obtain ⟨h1, h2, h3⟩ := pgRowMatches_iff.mp hc.1
          exact hnew r h1 h2 h3 hr
        rw [if_neg hrm]

/-- The visible table after `PostgresBackend::delete` (which returns Ok in
every case, rolling back on a zero affected-row count). -/
def pgDeleteState (user_token : String) (request : DeleteObjectRequest) (now : Nat)
    (t : PgTable) : PgTable :=
  match pgDelete user_token request now t with
  | .ok t2 => t2
  | .error _ => t

theorem pgGet_congr_find {t1 t2 : PgTable} (ut : String) (req : GetObjectRequest)
    (h : pgFind t1 ut req.store_id req.key = pgFind t2 ut req.store_id req.key) :
    pgGet ut req t1 = pgGet ut req t2 := by
  unfold pgGet
  rw [h]

/-- Claim C9 (amended): for every pair of distinct identity triples,
operations addressed to one never read or modify the other's record.  The
Postgres backend, which keys rows by the column triple, isolates
unconditionally — including user tokens and store ids containing '#': a
single-item Put or a standalone Delete under one triple leaves pgFind and
Get of the other unchanged.  The in-memory backend isolates provided the
user tokens and store ids contain no '#'; with '#' its flat-key encoding
collides and the isolation fails (see the counterexample). -/
theorem c9_namespace_isolation (ut1 sid1 k1 ut2 sid2 k2 : String) (v : List Nat)
    (w : Int) (now : Nat) (s : Store) (t : PgTable)
    (hne : ¬ (ut1 = ut2 ∧ sid1 = sid2 ∧ k1 = k2)) :
    ((¬ '#' ∈ ut1.data) → (¬ '#' ∈ sid1.data) → (¬ '#' ∈ ut2.data) → (¬ '#' ∈ sid2.data) →
      (storeGet (inMemoryPutState ut1 (singlePutRequest sid1 k1 v w) now s)
          (build_storage_key ut2 sid2 k2) =
        storeGet s (build_storage_key ut2 sid2 k2)) ∧
      (inMemoryGet ut2 { store_id := sid2, key := k2 }
          (inMemoryPutState ut1 (singlePutRequest sid1 k1 v w) now s) =
        inMemoryGet ut2 { store_id := sid2, key := k2 } s) ∧
      (storeGet (inMemoryDeleteState ut1
          { store_id := sid1, key_value := some { key := k1, value := v, version := w } } s)
          (build_storage_key ut2 sid2 k2) =
        storeGet s (build_storage_key ut2 sid2 k2))) ∧
    (pgFind (pgPutState ut1 (singlePutRequest sid1 k1 v w) now t) ut2 sid2 k2 =
      pgFind t ut2 sid2 k2) ∧
    (pgFind (pgDeleteState ut1
        { store_id := sid1, key_value := some { key := k1, value := v, version := w } } now t)
        ut2 sid2 k2 =
      pgFind t ut2 sid2 k2) ∧
    (pgGet ut2 { store_id := sid2, key := k2 }
        (pgPutState ut1 (singlePutRequest sid1 k1 v w) now t) =
      pgGet ut2 { store_id := sid2, key := k2 } t) ∧
    (pgGet ut2 { store_id := sid2, key := k2 }
        (pgDeleteState ut1
          { store_id := sid1, key_value := some { key := k1, value := v, version := w } }
          now t) =
      pgGet ut2 { store_id := sid2, key := k2 } t) := by
  have hpgput : pgFind (pgPutState ut1 (singlePutRequest sid1 k1 v w) now t) ut2 sid2 k2 =
      pgFind t ut2 sid2 k2 := by
    unfold pgPutState
    cases hres : pgPut ut1 (singlePutRequest sid1 k1 v w) now t with
    | error e => rfl
    | ok t2 =>
      rw [pgPut_single] at hres
      by_cases hz : (pgExecutePutObjectQuery t (build_vss_record ut1 sid1
          { key := k1, value := v, version := w } now)).2 = 0
      · rw [if_pos hz] at hres
        exact absurd hres (by simp)
      · rw [if_neg hz] at hres
        injection hres with hres
        rw [← hres]
        refine pgExecPut_find_other ?_
        intro ⟨hu, hs, hk⟩
        exact hne ⟨hu, hs, hk⟩
  have hds : pgDeleteState ut1
      { store_id := sid1, key_value := some { key := k1, value := v, version := w } } now t =
      if (pgExecuteDeleteObjectQuery t
          (build_vss_record ut1 sid1 { key := k1, value := v, version := w } now)).2 = 0
      then t
      else (pgExecuteDeleteObjectQuery t
        (build_vss_record ut1 sid1 { key := k1, value := v, version := w } now)).1 := by
    unfold pgDeleteState pgDelete
    by_cases hz : (pgExecuteDeleteObjectQuery t
        (build_vss_record ut1 sid1 { key := k1, value := v, version := w } now)).2 = 0
    · simp [hz]
    · simp [hz]
  have hpgdel : pgFind (pgDeleteState ut1
      { store_id := sid1, key_value := some { key := k1, value := v, version := w } } now t)
      ut2 sid2 k2 = pgFind t ut2 sid2 k2 := by
    rw [hds]
    by_cases hz : (pgExecuteDeleteObjectQuery t
        (build_vss_record ut1 sid1 { key := k1, value := v, version := w } now)).2 = 0
    · rw [if_pos hz]
    · rw [if_neg hz]
      refine pgExecDelete_find_other ?_
      intro ⟨hu, hs, hk⟩
      exact hne ⟨hu, hs, hk⟩
  refine ⟨?_, hpgput, hpgdel, pgGet_congr_find ut2 { store_id := sid2, key := k2 } hpgput,
    pgGet_congr_find ut2 { store_id := sid2, key := k2 } hpgdel⟩
  intro h1u h1s h2u h2s
  have hkne : build_storage_key ut1 sid1 k1 ≠ build_storage_key ut2 sid2 k2 := by
    intro hc
    exact hne (build_storage_key_inj h1u h1s h2u h2s hc)
  have hput : storeGet (inMemoryPutState ut1 (singlePutRequest sid1 k1 v w) now s)
      (build_storage_key ut2 sid2 k2) = storeGet s (build_storage_key ut2 sid2 k2) := by
    unfold inMemoryPutState
    cases hres : inMemoryPut ut1 (singlePutRequest sid1 k1 v w) now s with
    | error e => rfl
    | ok s2 =>
      rw [inMemoryPut_single] at hres
      cases hval : validate_put_operation s ut1 sid1 { key := k1, value := v, version := w } with
      | error e2 =>
        rw [hval] at hres
        exact absurd hres (by simp)
      | ok u =>
        cases u
        rw [hval] at hres
        simp only at hres
        injection hres with hres
        rw [← hres]
        exact execute_put_object_get_other hkne
  refine ⟨hput, ?_, ?_⟩
  · unfold inMemoryGet
    by_cases hk2 : k2 = GLOBAL_VERSION_KEY
    · simp only [hk2, if_pos rfl]
      unfold get_current_global_version
      rw [show build_storage_key ut2 sid2 GLOBAL_VERSION_KEY =
        build_storage_key ut2 sid2 k2 from by rw [hk2]]
      rw [hput]
    · simp only [if_neg hk2]
      rw [hput]
  · unfold inMemoryDeleteState inMemoryDelete
    simp only
    unfold execute_delete_object
    exact storeGet_remove_other (fun hc => hkne hc.symm)

/-- Witness for C9 on distinct hash-free triples over the demo store and
table. -/
theorem c9_namespace_isolation_witness :
    ((¬ '#' ∈ "u".data) → (¬ '#' ∈ "s".data) → (¬ '#' ∈ "u".data) → (¬ '#' ∈ "s".data) →
      (storeGet (inMemoryPutState "u" (singlePutRequest "s" "b" [1] (-1)) 0 demoStore)
          (build_storage_key "u" "s" "a") =
        storeGet demoStore (build_storage_key "u" "s" "a")) ∧
      (inMemoryGet "u" { store_id := "s", key := "a" }
          (inMemoryPutState "u" (singlePutRequest "s" "b" [1] (-1)) 0 demoStore) =
        inMemoryGet "u" { store_id := "s", key := "a" } demoStore) ∧
      (storeGet (inMemoryDeleteState "u"
          { store_id := "s", key_value := some { key := "b", value := [1], version := -1 } }
          demoStore)
          (build_storage_key "u" "s" "a") =
        storeGet demoStore (build_storage_key "u" "s" "a"))) ∧
    (pgFind (pgPutState "u" (singlePutRequest "s" "b" [1] (-1)) 0 demoTable) "u" "s" "a" =
      pgFind demoTable "u" "s" "a") ∧
    (pgFind (pgDeleteState "u"
        { store_id := "s", key_value := some { key := "b", value := [1], version := -1 } }
        0 demoTable) "u" "s" "a" =
      pgFind demoTable "u" "s" "a") ∧
    (pgGet "u" { store_id := "s", key := "a" }
        (pgPutState "u" (singlePutRequest "s" "b" [1] (-1)) 0 demoTable) =
      pgGet "u" { store_id := "s", key := "a" } demoTable) ∧
    (pgGet "u" { store_id := "s", key := "a" }
        (pgDeleteState "u"
          { store_id := "s", key_value := some { key := "b", value := [1], version := -1 } }
          0 demoTable) =
      pgGet "u" { store_id := "s", key := "a" } demoTable) :=
  c9_namespace_isolation "u" "s" "b" "u" "s" "a" [1] (-1) 0 demoStore demoTable (by decide)

/-- The Put request of the namespace-collision counterexample: identity
("a", "b", "c#k"). -/
def cxNsReq : PutObjectRequest :=
  { store_id := "b", global_version := none,
    transaction_items := [{ key := "c#k", value := [9], version := 0 }],
    delete_items := [] }

/-- Counterexample to C9 as stated: the storage keys of the distinct
identities ("a#b", "c", "k") and ("a", "b", "c#k") collide in the in-memory
backend, so a Get addressed to the first identity returns the data written
under the second. -/
theorem c9_namespace_isolation_counterexample :
    inMemoryGet "a#b" { store_id := "c", key := "k" }
      (inMemoryPutState "a" cxNsReq 0 []) =
      .ok { value := some { key := "c#k", value := [9], version := 1 } } := by
  decide

/-- The effective page limit of a list request (`min(page_size or 100, 100)
as usize`). -/
def lkvLimit (request : ListKeyVersionsRequest) : Nat :=
  usizeOfI32 (min (request.page_size.getD LIST_KEY_VERSIONS_MAX_PAGE_SIZE)
    LIST_KEY_VERSIONS_MAX_PAGE_SIZE)

/-- The offset parsed from the page token (0 when absent or unparsable). -/
def lkvOffset (request : ListKeyVersionsRequest) : Nat :=
  (request.page_token.bind parseUsize?).getD 0

/-- The store entries a list request ranges over: storage key starts with
the storage prefix and is not the sentinel key. -/
def lkvFiltered (ut : String) (request : ListKeyVersionsRequest) (s : Store) : Store :=
  s.filter (lkvPred (build_storage_key ut request.store_id (request.key_pfx.getD ""))
    (build_storage_key ut request.store_id GLOBAL_VERSION_KEY))

/-- The KeyValue built from a store entry by list_key_versions. -/
def lkvEntryToKV (ut : String) (request : ListKeyVersionsRequest)
    (e : String × VssDbRecord) : KeyValue :=
  { key := strDrop e.1 (namespaceKey ut request.store_id).length, value := [],
    version := e.2.version }

theorem inMemoryListKeyVersions_eq (ut : String) (request : ListKeyVersionsRequest)
    (s : Store) :
    inMemoryListKeyVersions ut request s =
      { key_versions := (((lkvFiltered ut request s).drop (lkvOffset request)).take
          (lkvLimit request)).map (lkvEntryToKV ut request)
      , next_page_token :=
          if ((((lkvFiltered ut request s).drop (lkvOffset request)).take
              (lkvLimit request)).map (lkvEntryToKV ut request)).isEmpty then some ""
          else some (natToString (lkvOffset request +
            ((((lkvFiltered ut request s).drop (lkvOffset request)).take
              (lkvLimit request)).map (lkvEntryToKV ut request)).length))
      , global_version :=
          if lkvOffset request = 0 then
            some (get_current_global_version s ut request.store_id)
          else none } := rfl

/-- One step of the client loop: stop on a missing or empty token, else
recurse through `rec` with the returned token. -/
def paginateStep (kvs : List KeyValue) (tok : Option String)
    (rec : String → List KeyValue) : List KeyValue :=
  match tok with
  | some t => if t = "" then kvs else kvs ++ rec t
  | none => kvs

/-- The client-side pagination loop of the claim: call list_key_versions,
feed back next_page_token, stop on the empty token (fuel-bounded). -/
def paginate : Nat → String → ListKeyVersionsRequest → Store → List KeyValue
  | 0, _, _, _ => []
  | Nat.succ f, ut, request, s =>
    let resp := inMemoryListKeyVersions ut request s
    paginateStep resp.key_versions resp.next_page_token
      (fun t => paginate f ut { request with page_token := some t } s)

theorem paginateStep_some (kvs : List KeyValue) (t : String)
    (rec : String → List KeyValue) :
    paginateStep kvs (some t) rec = if t = "" then kvs else kvs ++ rec t := rfl

theorem natToString_ne_empty (n : Nat) : natToString n ≠ "" := by
  intro h
  have hd := congrArg String.data h
  simp only [natToString] at hd
  exact natDigits_ne_nil n hd

theorem take_append_drop_length {α : Type} (n : Nat) (l : List α) :
    l.take n ++ l.drop (l.take n).length = l := by
  rw [List.length_take]
  by_cases h : n ≤ l.length
  · rw [Nat.min_eq_left h]
    exact List.take_append_drop n l
  · rw [Nat.min_eq_right (le_of_not_le h)]
    rw [List.take_of_length_le (le_of_not_le h)]
    rw [List.drop_length]
    simp

theorem lkvFiltered_token (ut : String) (request : ListKeyVersionsRequest) (s : Store)
    (t : Option String) :
    lkvFiltered ut { request with page_token := t } s = lkvFiltered ut request s := rfl

theorem paginate_from (ut : String) (s : Store) :
    ∀ (fuel : Nat) (request : ListKeyVersionsRequest) (o : Nat),
    1 ≤ lkvLimit request →
    (lkvFiltered ut request s).length < usizeMod →
    (lkvFiltered ut request s).length - o < fuel →
    lkvOffset request = o →
    paginate fuel ut request s =
      ((lkvFiltered ut request s).drop o).map (lkvEntryToKV ut request) := by
  intro fuel
  induction fuel with
  | zero =>
    intro request o hlim hlen hfuel htok
    omega
  | succ f ih =>
    intro request o hlim hlen hfuel htok
    simp only [paginate]
    rw [inMemoryListKeyVersions_eq]
    simp only
    rw [htok]
    by_cases hemp : ((((lkvFiltered ut request s).drop o).take (lkvLimit request)).map
        (lkvEntryToKV ut request)).isEmpty = true
    · rw [if_pos hemp]
      rw [paginateStep_some]
      rw [if_pos rfl]
      have hpage : ((lkvFiltered ut request s).drop o).take (lkvLimit request) = [] :=
        List.map_eq_nil.mp (List.isEmpty_iff.mp hemp)
      have hdrop : (lkvFiltered ut request s).drop o = [] := by
        rcases List.take_eq_nil_iff.mp hpage with h | h
        · omega
        · exact h
      rw [hpage, hdrop]
    · rw [if_neg hemp]
      rw [paginateStep_some]
      rw [if_neg (natToString_ne_empty _)]
      beta_reduce
      have hplen : ((((lkvFiltered ut request s).drop o).take (lkvLimit request)).map
          (lkvEntryToKV ut request)).length =
          (((lkvFiltered ut request s).drop o).take (lkvLimit request)).length :=
        List.length_map _ _
      have hple : (((lkvFiltered ut request s).drop o).take (lkvLimit request)).length ≤
          (lkvFiltered ut request s).length - o := by
        rw [← List.length_drop]
        rw [List.length_take]
        exact Nat.min_le_right _ _
      have hppos : 1 ≤ (((lkvFiltered ut request s).drop o).take (lkvLimit request)).length := by
        have hne : (((lkvFiltered ut request s).drop o).take (lkvLimit request)) ≠ [] := by
          intro hc
          rw [List.isEmpty_iff] at hemp
          exact hemp (by rw [hc]; rfl)
        have := List.length_pos.mpr hne
        omega
      have hopos : o ≤ (lkvFiltered ut request s).length := by
        by_contra hc
        have : (lkvFiltered ut request s).drop o = [] := by
          apply List.drop_eq_nil_of_le
          omega
        rw [this] at hppos
        simp at hppos
      have htok2 : lkvOffset { request with page_token := some (natToString (o +
          ((((lkvFiltered ut request s).drop o).take (lkvLimit request)).map
            (lkvEntryToKV ut request)).length)) } =
          o + ((((lkvFiltered ut request s).drop o).take (lkvLimit request)).map
            (lkvEntryToKV ut request)).length := by
        show (parseUsize? (natToString (o + _))).getD 0 = _
        rw [parseUsize?_natToString]
        · rfl
        · rw [hplen]
          omega
      have hih : paginate f ut { request with page_token := some (natToString (o +
          ((((lkvFiltered ut request s).drop o).take (lkvLimit request)).map
            (lkvEntryToKV ut request)).length)) } s =
          ((lkvFiltered ut request s).drop (o +
            ((((lkvFiltered ut request s).drop o).take (lkvLimit request)).map
              (lkvEntryToKV ut request)).length)).map (lkvEntryToKV ut request) := by
        refine ih _ _ ?_ ?_ ?_ htok2
        · exact hlim
        · rw [lkvFiltered_token]
          exact hlen
        · rw [lkvFiltered_token]
          rw [hplen]
          omega
      rw [hih]
      rw [hplen]
      rw [← List.drop_drop]
      rw [← List.map_append]
      congr 1
      exact take_append_drop_length (lkvLimit request) ((lkvFiltered ut request s).drop o)

theorem lkvFiltered_split {ut : String} {request : ListKeyVersionsRequest} {s : Store}
    {e : String × VssDbRecord} (he : e ∈ lkvFiltered ut request s) :
    e.1 = namespaceKey ut request.store_id ++
      strDrop e.1 (namespaceKey ut request.store_id).length := by
  have hpred := (List.mem_filter.mp he).2
  simp only [lkvPred, Bool.and_eq_true] at hpred
  have hsw := strStartsWith_iff.mp hpred.1
  have hnspfx : (namespaceKey ut request.store_id).data <+: e.1.data := by
    refine List.IsPrefix.trans ?_ hsw
    rw [build_storage_key_eq, String.data_append]
    exact List.prefix_append _ _
  obtain ⟨rest, hrest⟩ := hnspfx
  have he1 : e.1 = namespaceKey ut request.store_id ++ String.mk rest := by
    apply string_ext
    rw [String.data_append]
    exact hrest.symm
  rw [he1, strDrop_append]

/-- Claim C5 (amended): over an in-memory store that does not change during
the iteration, starting list_key_versions with no page_token and feeding
back next_page_token until it is the empty string yields every non-sentinel
key matching the prefix exactly once — no key omitted, none duplicated —
PROVIDED the effective page limit `min(page_size.unwrap_or(100), 100) as
usize` is at least 1.  The claim's "every page size" is wrong: with
page_size = 0 the first page is empty, the loop terminates at once, and
every matching key is omitted.  The claim is also wrong for the Postgres
backend even with limit ≥ 1: there the sentinel row is filtered only after
ORDER BY/LIMIT, so a page consisting solely of the sentinel comes back
empty with next_page_token = Some("") and the loop stops, omitting every
later key (see the counterexample for both). -/
theorem c5_pagination_complete (ut : String) (request : ListKeyVersionsRequest)
    (s : Store) (fuel : Nat) (hwf : s.WF)
    (htok : request.page_token = none)
    (hlim : 1 ≤ lkvLimit request)
    (hlen : (lkvFiltered ut request s).length < usizeMod)
    (hfuel : (lkvFiltered ut request s).length < fuel) :
    paginate fuel ut request s =
      (lkvFiltered ut request s).map (lkvEntryToKV ut request) ∧
    ((paginate fuel ut request s).map KeyValue.key).Nodup := by
  have h0 : lkvOffset request = 0 := by
    simp [lkvOffset, htok]
  have hp := paginate_from ut s fuel request 0 hlim hlen (by omega) h0
  rw [List.drop_zero] at hp
  constructor
  · exact hp
  · rw [hp, List.map_map]
    have hFpw : List.Pairwise (fun a b => a.1.data < b.1.data) (lkvFiltered ut request s) :=
      List.Pairwise.filter _ hwf
    have hpw2 : List.Pairwise (fun a b : String × VssDbRecord => a.1 ≠ b.1)
        (lkvFiltered ut request s) :=
      hFpw.imp (fun hab hc => absurd (hc ▸ hab) (lt_irrefl _))
    have hFnodup : (lkvFiltered ut request s).Nodup :=
      hFpw.imp (fun hab hc => absurd (hc ▸ hab) (lt_irrefl _))
    apply List.Nodup.map_on
    · intro x hx y hy hkey
      simp only [Function.comp, lkvEntryToKV] at hkey
      have hx1 := lkvFiltered_split hx
      have hy1 := lkvFiltered_split hy
      have hkeys : x.1 = y.1 := by
        rw [hx1]
        rw [hkey]
        rw [← hy1]
      by_contra hne
      have hsymm : Symmetric (fun a b : String × VssDbRecord => a.1 ≠ b.1) :=
        fun _ _ h hc => h hc.symm
      exact (hpw2.forall hsymm hx hy hne) hkeys
    · exact hFnodup

theorem c5_pagination_complete_witness :
    Store.WF demoStore ∧
    paginate 5 "u" demoListRequest demoStore =
      (lkvFiltered "u" demoListRequest demoStore).map (lkvEntryToKV "u" demoListRequest) ∧
    ((paginate 5 "u" demoListRequest demoStore).map KeyValue.key).Nodup :=
  ⟨by decide, c5_pagination_complete "u" demoListRequest demoStore 5 (by decide) rfl
    (by decide) (by decide) (by decide)⟩

/-- A list request with page_size = 0 used by the C5 counterexample. -/
def cxPage0Request : ListKeyVersionsRequest :=
  { store_id := "s", key_pfx := none, page_size := some 0, page_token := none }

/-- The client loop over the Postgres backend: call list_key_versions, feed
back next_page_token, stop on a missing or empty token or on an error
(fuel-bounded). -/
def pgPaginate : Nat → String → ListKeyVersionsRequest → PgTable → List KeyValue
  | 0, _, _, _ => []
  | Nat.succ f, ut, request, t =>
    match pgListKeyVersions ut request t with
    | .error _ => []
    | .ok resp =>
      paginateStep resp.key_versions resp.next_page_token
        (fun tok => pgPaginate f ut { request with page_token := some tok } t)

/-- Rows of the Postgres pagination counterexample: one real key on each
side of the sentinel in key order. -/
def cxPgRecA : VssDbRecord :=
  { user_token := "u", store_id := "s", key := "a", value := [],
    version := 1, created_at := 0, last_updated_at := 0 }

/-- The sentinel row of the Postgres pagination counterexample. -/
def cxPgRecG : VssDbRecord :=
  { user_token := "u", store_id := "s", key := "global_version", value := [],
    version := 7, created_at := 0, last_updated_at := 0 }

/-- The row after the sentinel in key order, omitted by the loop. -/
def cxPgRecZ : VssDbRecord :=
  { user_token := "u", store_id := "s", key := "z", value := [],
    version := 2, created_at := 0, last_updated_at := 0 }

/-- The table of the Postgres pagination counterexample. -/
def cxPgTable : PgTable := [cxPgRecA, cxPgRecG, cxPgRecZ]

/-- The page_size = 1 list request of the Postgres counterexample (effective
limit 1 ≥ 1). -/
def cxPgListRequest : ListKeyVersionsRequest :=
  { store_id := "s", key_pfx := none, page_size := some 1, page_token := none }

/-- Counterexample to claim C5 as stated, for both backends.  In-memory:
with page_size = 0 the effective limit is 0, the first page is empty with
next_page_token = Some(""), so the loop stops at once and the matching key
"u#s#a" in the store is never returned.  Postgres: even with effective
limit 1 ≥ 1, the sentinel row is filtered only after ORDER BY/LIMIT, so
the second page consists solely of the sentinel, comes back with empty
key_versions and next_page_token = Some(""), and the loop stops without
ever returning the matching non-sentinel key "z". -/
theorem c5_counterexample :
    (paginate 5 "u" cxPage0Request demoStore = [] ∧
      (lkvFiltered "u" cxPage0Request demoStore).length = 1) ∧
    (pgPaginate 5 "u" cxPgListRequest cxPgTable =
        [{ key := "a", value := [], version := 1 }] ∧
      cxPgRecZ ∈ cxPgTable ∧ cxPgRecZ.key ≠ GLOBAL_VERSION_KEY) := by
  refine ⟨⟨by decide, by decide⟩, by decide, by decide, by decide⟩
